import Mathlib

/-!
# Verification of the redis server's frame codec, executor and replication logic

This file gives a shallow embedding, in Lean 4, of the core of the Rust
redis implementation (the async draft: `src/value.rs`, `src/parser.rs`,
`src/command.rs`, `src/worker.rs`, `src/replica.rs`) and proves or refutes
the specification claims about it.

Modelling conventions:
* Rust `u8` bytes are `Nat` (all concrete values are < 256; overflow never
  arises because no byte arithmetic is performed).
* Rust `String` is modelled as its UTF-8 byte sequence (`List Nat`); Rust
  `String` equality coincides with byte equality, and
  `String::from_utf8(..).unwrap()` is modelled as a validity check returning
  `Option` (`none` models the panic).
* Rust `Vec<T>` / `VecDeque<u8>` are `List`s; `Vec::push` appends at the
  back, `Vec::pop` removes from the back, `Vec::drain(0..n)` removes the
  first `n` elements.
* `HashMap` / the replica registry are association lists with
  insert-replaces-existing semantics.
* The Rust `loop` in `RedisValueParser::parse_loop` is embedded with an
  explicit fuel parameter (`none` = fuel exhausted or a Rust panic, which
  no theorem below ever relies on); each fuel unit is one loop iteration.
-/

/-! ## Byte-level helpers -/

/-- ASCII bytes of a Lean string literal (used only for ASCII literals that
appear verbatim in the Rust source). -/
def strBytes (s : String) : List Nat :=
  s.data.map Char.toNat

/-- Worker for `serNat`: digits of `n`, most significant first, as ASCII
bytes, with an explicit fuel (any fuel `≥ n` is exact). -/
def serNatCore : Nat → Nat → List Nat
  | 0, _ => []
  | fuel + 1, n => if n = 0 then [] else serNatCore fuel (n / 10) ++ [n % 10 + 48]

/-- Decimal digits of `n`, most significant first, as ASCII bytes: the
embedding of Rust's `usize::to_string` / `u64::to_string`. -/
def serNat (n : Nat) : List Nat :=
  if n = 0 then [48] else serNatCore n n

/-- UTF-8 validity of a byte sequence, as checked by Rust's
`String::from_utf8` (RFC 3629: no surrogates, no overlong forms,
max U+10FFFF). -/
def validUtf8 : List Nat → Bool
  | [] => true
  | b :: rest =>
    if b < 0x80 then validUtf8 rest
    else if 0xC2 ≤ b ∧ b ≤ 0xDF then
      match rest with
      | c1 :: rest' => (0x80 ≤ c1 ∧ c1 ≤ 0xBF) && validUtf8 rest'
      | [] => false
    else if b = 0xE0 then
      match rest with
      | c1 :: c2 :: rest' =>
        (0xA0 ≤ c1 ∧ c1 ≤ 0xBF) && (0x80 ≤ c2 ∧ c2 ≤ 0xBF) && validUtf8 rest'
      | _ => false
    else if (0xE1 ≤ b ∧ b ≤ 0xEC) ∨ (0xEE ≤ b ∧ b ≤ 0xEF) then
      match rest with
      | c1 :: c2 :: rest' =>
        (0x80 ≤ c1 ∧ c1 ≤ 0xBF) && (0x80 ≤ c2 ∧ c2 ≤ 0xBF) && validUtf8 rest'
      | _ => false
    else if b = 0xED then
      match rest with
      | c1 :: c2 :: rest' =>
        (0x80 ≤ c1 ∧ c1 ≤ 0x9F) && (0x80 ≤ c2 ∧ c2 ≤ 0xBF) && validUtf8 rest'
      | _ => false
    else if b = 0xF0 then
      match rest with
      | c1 :: c2 :: c3 :: rest' =>
        (0x90 ≤ c1 ∧ c1 ≤ 0xBF) && (0x80 ≤ c2 ∧ c2 ≤ 0xBF) &&
          (0x80 ≤ c3 ∧ c3 ≤ 0xBF) && validUtf8 rest'
      | _ => false
    else if 0xF1 ≤ b ∧ b ≤ 0xF3 then
      match rest with
      | c1 :: c2 :: c3 :: rest' =>
        (0x80 ≤ c1 ∧ c1 ≤ 0xBF) && (0x80 ≤ c2 ∧ c2 ≤ 0xBF) &&
          (0x80 ≤ c3 ∧ c3 ≤ 0xBF) && validUtf8 rest'
      | _ => false
    else if b = 0xF4 then
      match rest with
      | c1 :: c2 :: c3 :: rest' =>
        (0x80 ≤ c1 ∧ c1 ≤ 0x8F) && (0x80 ≤ c2 ∧ c2 ≤ 0xBF) &&
          (0x80 ≤ c3 ∧ c3 ≤ 0xBF) && validUtf8 rest'
      | _ => false
    else false

/-- Embedding of `Into<String> for &RedisBulkString`
(`String::from_utf8(self.data.to_owned()).unwrap()`): `none` models the
panic on invalid UTF-8, otherwise the string is its byte sequence. -/
def intoStringChecked (bs : List Nat) : Option (List Nat) :=
  if validUtf8 bs then some bs else none

/-- Embedding of Rust's `str::to_lowercase` restricted to ASCII input,
on which Rust's Unicode lowercasing agrees with ASCII folding.  Rust
additionally folds some non-ASCII characters into ASCII (U+212A KELVIN
SIGN lowers to `k`), so every theorem using this definition pins ASCII
input: either by an explicit all-bytes-below-128 hypothesis, or by
equating the image with an ASCII keyword that only ASCII input can map
to (`toLowerAscii` never rewrites a byte ≥ 128). -/
def toLowerAscii (bs : List Nat) : List Nat :=
  bs.map (fun b => if 65 ≤ b ∧ b ≤ 90 then b + 32 else b)

/-- Embedding of `str::parse::<u64>()`: optional leading `+`, one or more
decimal digits, value below `2^64`; `none` models the `Err` case. -/
def parseU64 (bs : List Nat) : Option Nat :=
  let digits := match bs with
    | 43 :: rest => rest
    | _ => bs
  if digits = [] then none
  else if digits.all (fun b => 48 ≤ b ∧ b ≤ 57) then
    let v := digits.foldl (fun a b => a * 10 + (b - 48)) 0
    if v < 2 ^ 64 then some v else none
  else none

/-! ## `value.rs`: the frame type and its serializer -/

/-- Embedding of `RedisValue` (`value.rs`).  `RedisBulkString` is a
newtype over `Vec<u8>`, so bulk payloads are inlined as `List Nat`;
`SimpleString`'s Rust `String` is its UTF-8 byte sequence. -/
inductive RedisValue where
  | SimpleString (s : List Nat)
  | BulkString (s : Option (List Nat))
  | Array (items : List RedisValue)
  | Integer (i : Nat)
  | Rdb (content : List Nat)

mutual

/-- Embedding of `Into<Vec<u8>> for &RedisValue` (`value.rs`), the wire
serializer.  `CRLF = [13, 10]`; `+` = 43, `$` = 36, `*` = 42, `:` = 58,
`-1` = [45, 49]. -/
def serialize : RedisValue → List Nat
  | .SimpleString s => 43 :: (s ++ [13, 10])
  | .BulkString none => 36 :: ([45, 49] ++ [13, 10])
  | .BulkString (some d) => 36 :: (serNat d.length ++ [13, 10] ++ d ++ [13, 10])
  | .Array a => 42 :: (serNat a.length ++ [13, 10] ++ serializeList a)
  | .Rdb c => 36 :: (serNat c.length ++ [13, 10] ++ c)
  | .Integer i => 58 :: (serNat i ++ [13, 10])

/-- Concatenation of the serializations of array elements (the `for` loop
in the `Array` arm of the serializer). -/
def serializeList : List RedisValue → List Nat
  | [] => []
  | v :: vs => serialize v ++ serializeList vs

end

example : serialize (.BulkString (some (strBytes "abcde"))) = strBytes "$5\r\nabcde\r\n" := by
  simp [serialize, strBytes, serNat, serNatCore]

example : serialize (.Array [.BulkString (some (strBytes "a"))]) = strBytes "*1\r\n$1\r\na\r\n" := by
  simp [serialize, serializeList, strBytes, serNat, serNatCore]

example : serialize (.Integer 42) = strBytes ":42\r\n" := by
  simp [serialize, strBytes, serNat, serNatCore]

example : serialize (.BulkString none) = strBytes "$-1\r\n" := by
  simp [serialize, strBytes]

example : serialize (.Rdb [1, 2, 3]) = [36, 51, 13, 10, 1, 2, 3] := by
  simp [serialize, serNat, serNatCore]

/-! ## `parser.rs`: the incremental frame parser -/

/-- Embedding of `LengthState` (`parser.rs`). -/
inductive LengthState where
  | Reading
  | Loading
  | Loaded (n : Nat)

/-- Embedding of `MessageParserState` (`parser.rs`).  The Rust
`state_stack: Vec<MessageParserState>` pushes/pops at the back; we model
the stack as a list whose *head* is the top. -/
inductive MessageParserState where
  | Initial
  | WaitForSr
  | WaitForSn
  | ReadingLength (length : Option Nat) (headingZero : Bool)
  | ReadingBulkString (length : LengthState) (content : List Nat)
  | ReadingSimpleString (content : List Nat)
  | ReadingArray (length : LengthState) (collected : Nat)
  | ReadingRdb (length : LengthState) (content : List Nat)

/-- Embedding of `MessageParserStateError` (`parser.rs`).  The Rust
variants carry a `line!()` literal (`UnexceptedToken`) and a formatted
message embedding `last_pos` (`UnexceptedValue`); we keep the byte and
position and drop the source-line / message-text decoration. -/
inductive MessageParserStateError where
  | UnexceptedToken (b : Nat) (pos : Nat)
  | UnexceptedValue (pos : Nat)
deriving DecidableEq

/-- Embedding of `RedisValueParser` (`parser.rs`): the transport buffer,
the value buffer (`Vec` pushed/popped at the back, drained at the front)
and the state stack (top = list head). -/
structure RedisValueParser where
  bytesBuffer : List Nat
  valueBuffer : List RedisValue
  stateStack : List MessageParserState

/-- One-to-one embedding of the `loop` body of
`RedisValueParser::parse_loop` (`parser.rs` lines 111-382), fuel-indexed:
one fuel unit per loop iteration.  `none` means fuel ran out or the Rust
code panics (`Vec::drain` out of bounds); every theorem below proves a
`some` result, so neither case is ever relied upon.  The `usize` iterator
position is `pos`; `lastPos` is `last_pos`.  Early `return`s inside the
loop leave the transport buffer untouched; the normal exit (stack empty)
pops the last buffered value and drains `0..=last_pos` from the buffer. -/
def parseLoop : Nat → List Nat → Nat → Nat → List MessageParserState → List RedisValue →
    Option (Except MessageParserStateError (Option RedisValue × Nat) × RedisValueParser)
  | 0, _, _, _, _, _ => none
  | fuel + 1, buf, pos, lastPos, stack, values =>
    match stack with
    | [] => some (.ok (values.getLast?, lastPos), ⟨buf.drop (lastPos + 1), values.dropLast, []⟩)
    | state :: rest =>
      match state with
      | .Initial =>
        match buf[pos]? with
        | some b =>
          if b = 36 then
            parseLoop fuel buf (pos + 1) pos (.ReadingBulkString .Reading [] :: rest) values
          else if b = 42 then
            parseLoop fuel buf (pos + 1) pos (.ReadingArray .Reading 0 :: rest) values
          else if b = 43 then
            parseLoop fuel buf (pos + 1) pos (.ReadingSimpleString [] :: rest) values
          else some (.error (.UnexceptedToken b pos), ⟨buf, values, rest⟩)
        | none => some (.ok (none, lastPos), ⟨buf, values, rest⟩)
      | .ReadingBulkString lengthState content =>
        match lengthState with
        | .Reading =>
          parseLoop fuel buf pos lastPos
            (.ReadingLength none false :: .ReadingBulkString .Loading content :: rest) values
        | .Loading =>
          match values.getLast? with
          | some (.Integer l) =>
            parseLoop fuel buf pos lastPos
              (.ReadingBulkString (.Loaded l) content :: rest) values.dropLast
          | _ => some (.error (.UnexceptedValue lastPos), ⟨buf, values.dropLast, rest⟩)
        | .Loaded l =>
          match buf[pos]? with
          | some b =>
            if content.length + 1 < l then
              parseLoop fuel buf (pos + 1) pos
                (.ReadingBulkString (.Loaded l) (content ++ [b]) :: rest) values
            else
              parseLoop fuel buf (pos + 1) pos (.WaitForSr :: .WaitForSn :: rest)
                (values ++ [.BulkString (some (content ++ [b]))])
          | none => some (.ok (none, lastPos), ⟨buf, values, rest⟩)
      | .ReadingRdb lengthState content =>
        match lengthState with
        | .Reading =>
          parseLoop fuel buf pos lastPos
            (.ReadingLength none false :: .ReadingRdb .Loading content :: rest) values
        | .Loading =>
          match values.getLast? with
          | some (.Integer l) =>
            parseLoop fuel buf pos lastPos
              (.ReadingRdb (.Loaded l) content :: rest) values.dropLast
          | _ => some (.error (.UnexceptedValue lastPos), ⟨buf, values.dropLast, rest⟩)
        | .Loaded l =>
          match buf[pos]? with
          | some b =>
            if content.length + 1 < l then
              parseLoop fuel buf (pos + 1) pos
                (.ReadingRdb (.Loaded l) (content ++ [b]) :: rest) values
            else
              parseLoop fuel buf (pos + 1) pos rest (values ++ [.Rdb (content ++ [b])])
          | none => some (.ok (none, lastPos), ⟨buf, values, rest⟩)
      | .ReadingArray lengthState collected =>
        match lengthState with
        | .Reading =>
          parseLoop fuel buf pos lastPos
            (.ReadingLength none false :: .ReadingArray .Loading 0 :: rest) values
        | .Loading =>
          match values.getLast? with
          | some (.Integer l) =>
            parseLoop fuel buf pos lastPos
              (.ReadingArray (.Loaded l) collected :: rest) values.dropLast
          | _ => some (.error (.UnexceptedValue lastPos), ⟨buf, values.dropLast, rest⟩)
        | .Loaded l =>
          if collected < l then
            parseLoop fuel buf pos lastPos
              (.Initial :: .ReadingArray (.Loaded l) (collected + 1) :: rest) values
          else if l ≤ values.length then
            parseLoop fuel buf pos lastPos rest (values.drop l ++ [.Array (values.take l)])
          else none
      | .ReadingSimpleString content =>
        match buf[pos]? with
        | some b =>
          if b = 13 then
            parseLoop fuel buf (pos + 1) lastPos (.WaitForSn :: rest)
              (values ++ [.SimpleString content])
          else
            parseLoop fuel buf (pos + 1) lastPos
              (.ReadingSimpleString (content ++ [b]) :: rest) values
        | none => some (.ok (none, lastPos), ⟨buf, values, rest⟩)
      | .WaitForSn =>
        match buf[pos]? with
        | some b =>
          if b = 10 then parseLoop fuel buf (pos + 1) pos rest values
          else some (.error (.UnexceptedToken b pos), ⟨buf, values, rest⟩)
        | none => some (.ok (none, lastPos), ⟨buf, values, rest⟩)
      | .WaitForSr =>
        match buf[pos]? with
        | some b =>
          if b = 13 then parseLoop fuel buf (pos + 1) pos rest values
          else some (.error (.UnexceptedToken b pos), ⟨buf, values, rest⟩)
        | none => some (.ok (none, lastPos), ⟨buf, values, rest⟩)
      | .ReadingLength lengthAcc headingZero =>
        match lengthAcc with
        | none =>
          match buf[pos]? with
          | some b =>
            if 48 ≤ b ∧ b ≤ 57 then
              parseLoop fuel buf (pos + 1) lastPos
                (.ReadingLength (some (b - 48)) headingZero :: rest) values
            else some (.error (.UnexceptedToken b pos), ⟨buf, values, rest⟩)
          | none => some (.ok (none, lastPos), ⟨buf, values, rest⟩)
        | some l =>
          match buf[pos]? with
          | some b =>
            if 48 ≤ b ∧ b ≤ 57 then
              if headingZero ∧ b = 48 then
                some (.error (.UnexceptedToken b pos), ⟨buf, values, rest⟩)
              else
                parseLoop fuel buf (pos + 1) lastPos
                  (.ReadingLength (some (l * 10 + (b - 48))) headingZero :: rest) values
            else if b = 13 then
              parseLoop fuel buf (pos + 1) lastPos (.WaitForSn :: rest) (values ++ [.Integer l])
            else some (.error (.UnexceptedToken b pos), ⟨buf, values, rest⟩)
          | none => some (.ok (none, lastPos), ⟨buf, values, rest⟩)

/-- `RedisValueParser::new()`. -/
def RedisValueParser.new : RedisValueParser := ⟨[], [], []⟩

/-- `RedisValueParser::append` — extend the transport buffer. -/
def RedisValueParser.append (p : RedisValueParser) (input : List Nat) : RedisValueParser :=
  ⟨p.bytesBuffer ++ input, p.valueBuffer, p.stateStack⟩

/-- Fuel that provably dominates the iteration count of `parse_loop` for
every run this file reasons about (4 iterations per input byte plus a
constant per pending stack entry). -/
def parseFuel (p : RedisValueParser) : Nat :=
  4 * p.bytesBuffer.length + 4 * p.stateStack.length + 20

/-- `RedisValueParser::parse`: push `Initial` and run the loop. -/
def RedisValueParser.parse (p : RedisValueParser) :
    Option (Except MessageParserStateError (Option RedisValue × Nat) × RedisValueParser) :=
  parseLoop (parseFuel p) p.bytesBuffer 0 0 (.Initial :: p.stateStack) p.valueBuffer

/-- `RedisValueParser::parse_rdb`: on a non-empty buffer, assert the
leading `$` (popping it), push `ReadingRdb` and run the loop; `none`
models the `assert_eq!` panic on a non-`$` head. -/
def RedisValueParser.parseRdb (p : RedisValueParser) :
    Option (Except MessageParserStateError (Option RedisValue × Nat) × RedisValueParser) :=
  match p.bytesBuffer with
  | [] => some (.ok (none, 0), p)
  | b :: restBytes =>
    if b = 36 then
      parseLoop (4 * restBytes.length + 4 * p.stateStack.length + 20) restBytes 0 0
        (.ReadingRdb .Reading [] :: p.stateStack) p.valueBuffer
    else none

example :
    (RedisValueParser.new.append (strBytes "$5\r\n12345\r\n")).parse =
      some (.ok (some (.BulkString (some (strBytes "12345"))), 10), ⟨[], [], []⟩) := by
  rfl

example :
    (RedisValueParser.new.append (strBytes "*0\r\n")).parse =
      some (.ok (some (.Array []), 3), ⟨[], [], []⟩) := by
  rfl

example :
    (RedisValueParser.new.append (strBytes "+HAPPY\r\n")).parse =
      some (.ok (some (.SimpleString (strBytes "HAPPY")), 7), ⟨[], [], []⟩) := by
  rfl

example :
    (RedisValueParser.new.append
        (strBytes "*2\r\n$5\r\nhello\r\n$5\r\nworld\r\n")).parse =
      some (.ok (some (.Array [.BulkString (some (strBytes "hello")),
        .BulkString (some (strBytes "world"))]), 25), ⟨[], [], []⟩) := by
  rfl

/-! ## Claims C8 and C4: parser defects, evaluated -/

/-- **C8** (code bug): the spec demands that a multi-digit length whose
digit string begins with `0` (e.g. `$01`, `*01`) is a parse error, and
`parse_loop` carries a `heading_zero` flag and an error branch for exactly
that — but `reading_length()` initialises `heading_zero` to `false` and no
code path ever sets it, so the check `heading_zero && *b == b'0'` is dead
and `$01\r\nx\r\n` (resp. `*01\r\n$1\r\na\r\n`) parses successfully as the
one-byte bulk string `x` (resp. the one-element array `[a]`). -/
theorem c8_leading_zero_accepted :
    (RedisValueParser.new.append (strBytes "$01\r\nx\r\n")).parse =
      some (.ok (some (.BulkString (some [120])), 7), ⟨[], [], []⟩) ∧
    (RedisValueParser.new.append (strBytes "*01\r\n$1\r\na\r\n")).parse =
      some (.ok (some (.Array [.BulkString (some [97])]), 11), ⟨[], [], []⟩) :=
  ⟨rfl, rfl⟩

/-- **C4** (code bug): suspending a parse mid-array and resuming after more
bytes arrive does *not* preserve the parse semantics.  Parsing
`*2\r\n$1\r\na\r\n` suspends with the in-progress array state still on the
stack, the already-parsed child `a` still in the value buffer and the
transport buffer undrained; the resumed `parse()` pushes a fresh `Initial`
*on top of* the stale stack and re-reads the buffer from the start, so the
stale `ReadingArray` entry and the stale buffered child corrupt the
result: the split run returns `[b, [a, a]]` where the unsplit run of the
very same bytes returns `[a, b]`. -/
theorem c4_suspend_resume_corrupts :
    (RedisValueParser.new.append (strBytes "*2\r\n$1\r\na\r\n$1\r\nb\r\n")).parse =
      some (.ok (some (.Array [.BulkString (some [97]), .BulkString (some [98])]), 17),
        ⟨[], [], []⟩) ∧
    (RedisValueParser.new.append (strBytes "*2\r\n$1\r\na\r\n")).parse =
      some (.ok (none, 10),
        ⟨strBytes "*2\r\n$1\r\na\r\n", [.BulkString (some [97])],
          [.ReadingArray (.Loaded 2) 2]⟩) ∧
    ((⟨strBytes "*2\r\n$1\r\na\r\n", [.BulkString (some [97])],
        [.ReadingArray (.Loaded 2) 2]⟩ : RedisValueParser).append
          (strBytes "$1\r\nb\r\n")).parse =
      some (.ok (some (.Array [.BulkString (some [98]),
        .Array [.BulkString (some [97]), .BulkString (some [97])]]), 17), ⟨[], [], []⟩) ∧
    RedisValue.Array [.BulkString (some [97]), .BulkString (some [98])] ≠
      RedisValue.Array [.BulkString (some [98]),
        .Array [.BulkString (some [97]), .BulkString (some [97])]] :=
  ⟨rfl, rfl, rfl, by simp⟩

/-! ## `command.rs`: commands, their serialization and parsing -/

/-- Embedding of `RedisCommand` (`command.rs`).  `RedisBulkString` fields
are their byte payloads.  The Rust variant `Type` is named `TypeCmd` here
because `Type` is a Lean keyword. -/
inductive RedisCommand where
  | Ping
  | Echo (v : List Nat)
  | Get (k : List Nat)
  | Set (k v : List Nat) (px : Option Nat)
  | TypeCmd (k : List Nat)
  | Replconf (a1 a2 : List Nat)
  | Info (v : List Nat)
  | Psync (id offset : List Nat)
  | Wait (number timeout : Nat)
  | Select (index : Nat)
  | Config (method key : List Nat)
deriving DecidableEq

/-- Embedding of `Into<RedisValue> for &RedisCommand` (`command.rs`): the
array-of-bulk-strings wire form of a command. -/
def commandToValue : RedisCommand → RedisValue
  | .Ping => .Array [.BulkString (some (strBytes "ping"))]
  | .Echo v => .Array [.BulkString (some (strBytes "echo")), .BulkString (some v)]
  | .Set k v px =>
    .Array ([.BulkString (some (strBytes "set")), .BulkString (some k), .BulkString (some v)] ++
      (match px with
       | some px => [.BulkString (some (strBytes "px")), .BulkString (some (serNat px))]
       | none => []))
  | .Get k => .Array [.BulkString (some (strBytes "get")), .BulkString (some k)]
  | .TypeCmd k => .Array [.BulkString (some (strBytes "type")), .BulkString (some k)]
  | .Info v => .Array [.BulkString (some (strBytes "info")), .BulkString (some v)]
  | .Replconf a1 a2 =>
    .Array [.BulkString (some (strBytes "replconf")), .BulkString (some a1),
      .BulkString (some a2)]
  | .Psync id offset =>
    .Array [.BulkString (some (strBytes "psync")), .BulkString (some id),
      .BulkString (some offset)]
  | .Wait number timeout =>
    .Array [.BulkString (some (strBytes "wait")), .BulkString (some (serNat number)),
      .BulkString (some (serNat timeout))]
  | .Select index =>
    .Array [.BulkString (some (strBytes "select")), .BulkString (some (serNat index))]
  | .Config method key =>
    .Array [.BulkString (some (strBytes "config")), .BulkString (some method),
      .BulkString (some key)]

/-- Embedding of `RedisCommandError` (`command.rs`).  `Malform`'s and
`ParsingError`'s payloads (a formatted message / a parser error) are
dropped; the claims only inspect `DismatchedArgsNum`. -/
inductive RedisCommandError where
  | Malform
  | ParsingError
  | DismatchedArgsNum (expected got : Nat)
  | UnknownCommand (name : List Nat)
  | IlleagalArg
deriving DecidableEq

/-- Embedding of `TryInto<RedisCommand> for RedisValue` (`command.rs`).
The outer `Option` models the panics in that function (`split_first`
on an empty array, out-of-bounds `args[i]` indexing in the `replconf`
arm, and `.parse().unwrap()` / `String::from_utf8(..).unwrap()` failures);
the inner `Except` is the Rust `Result`. -/
def tryIntoCommand (value : RedisValue) : Option (Except RedisCommandError RedisCommand) :=
  match value with
  | .Array [] => none
  | .Array (command :: args) =>
    match command with
    | .BulkString (some nameBytes) =>
      (intoStringChecked nameBytes).bind fun name =>
      let name := toLowerAscii name
      if name = strBytes "ping" then some (.ok .Ping)
      else if name = strBytes "echo" then
        match args with
        | [.BulkString (some s)] => some (.ok (.Echo s))
        | [_] => some (.error .IlleagalArg)
        | _ => some (.error (.DismatchedArgsNum 1 args.length))
      else if name = strBytes "get" then
        match args with
        | [.BulkString (some s)] => some (.ok (.Get s))
        | [_] => some (.error .IlleagalArg)
        | _ => some (.error (.DismatchedArgsNum 1 args.length))
      else if name = strBytes "set" then
        match args with
        | [.BulkString (some k), .BulkString (some v)] => some (.ok (.Set k v none))
        | [_, _] => some (.error .IlleagalArg)
        | [a0, a1, _, a3] =>
          match a0 with
          | .BulkString (some k) =>
            match a1 with
            | .BulkString (some v) =>
              match a3 with
              | .BulkString (some pxBytes) =>
                (intoStringChecked pxBytes).bind fun pxStr =>
                (parseU64 pxStr).map fun px => .ok (.Set k v (some px))
              | _ => some (.error .IlleagalArg)
            | _ => some (.error .IlleagalArg)
          | _ => some (.error .IlleagalArg)
        | _ => some (.error (.DismatchedArgsNum 4 args.length))
      else if name = strBytes "type" then
        match args with
        | [.BulkString (some k)] => some (.ok (.TypeCmd k))
        | [_] => some (.error .IlleagalArg)
        | _ => some (.error (.DismatchedArgsNum 1 args.length))
      else if name = strBytes "info" then
        match args with
        | [.BulkString (some k)] => some (.ok (.Info k))
        | [_] => some (.error .IlleagalArg)
        | _ => some (.error (.DismatchedArgsNum 1 args.length))
      else if name = strBytes "replconf" then
        (args[0]?).bind fun a0 =>
        (args[1]?).bind fun a1 =>
        match a0 with
        | .BulkString (some arg1) =>
          match a1 with
          | .BulkString (some arg2) => some (.ok (.Replconf arg1 arg2))
          | _ => some (.error .IlleagalArg)
        | _ => some (.error .IlleagalArg)
      else if name = strBytes "psync" then
        match args with
        | [a0, a1] =>
          match a0 with
          | .BulkString (some arg1) =>
            match a1 with
            | .BulkString (some arg2) => some (.ok (.Psync arg1 arg2))
            | _ => some (.error .IlleagalArg)
          | _ => some (.error .IlleagalArg)
        | _ => some (.error (.DismatchedArgsNum 2 args.length))
      else if name = strBytes "wait" then
        match args with
        | [a0, a1] =>
          match a0 with
          | .BulkString (some numBytes) =>
            (intoStringChecked numBytes).bind fun numStr =>
            (parseU64 numStr).bind fun number =>
            match a1 with
            | .BulkString (some toBytes) =>
              (intoStringChecked toBytes).bind fun toStr =>
              (parseU64 toStr).map fun timeout => .ok (.Wait number timeout)
            | _ => some (.error .IlleagalArg)
          | _ => some (.error .IlleagalArg)
        | _ => some (.error (.DismatchedArgsNum 1 args.length))
      else if name = strBytes "select" then
        match args with
        | [a0] =>
          match a0 with
          | .BulkString (some idxBytes) =>
            (intoStringChecked idxBytes).bind fun idxStr =>
            (parseU64 idxStr).map fun index => .ok (.Select index)
          | _ => some (.error .IlleagalArg)
        | _ => some (.error (.DismatchedArgsNum 1 args.length))
      else if name = strBytes "config" then
        match args with
        | [a0, a1] =>
          match a0 with
          | .BulkString (some method) =>
            match a1 with
            | .BulkString (some key) => some (.ok (.Config method key))
            | _ => some (.error .IlleagalArg)
          | _ => some (.error .IlleagalArg)
        | _ => some (.error (.DismatchedArgsNum 2 args.length))
      else some (.error (.UnknownCommand name))
    | _ => some (.error .Malform)
  | _ => some (.error .Malform)

/-! ## Association-list model of `HashMap` (store, registry, channel map) -/

/-- `HashMap::get` (first matching binding; maps built by `assocInsert` /
`assocRemove` never hold a key twice). -/
def assocGet {α : Type} : List (List Nat × α) → List Nat → Option α
  | [], _ => none
  | e :: rest, k => if e.1 = k then some e.2 else assocGet rest k

/-- `HashMap::insert` (replace the existing binding if the key is
present, add otherwise). -/
def assocInsert {α : Type} : List (List Nat × α) → List Nat → α → List (List Nat × α)
  | [], k, v => [(k, v)]
  | e :: rest, k, v => if e.1 = k then (k, v) :: rest else e :: assocInsert rest k v

/-- `HashMap::remove`. -/
def assocRemove {α : Type} : List (List Nat × α) → List Nat → List (List Nat × α)
  | [], _ => []
  | e :: rest, k => if e.1 = k then assocRemove rest k else e :: assocRemove rest k

/-! ## `worker.rs` and `replica.rs`: the executor and replication -/

/-- Embedding of `StoreItem` (`redis.rs`). -/
structure StoreItem where
  value : RedisValue
  expired_at : Nat

/-- The key-value store (`HashMap<String, StoreItem>`); the `String` keys
are their UTF-8 bytes. -/
abbrev Store := List (List Nat × StoreItem)

/-- The replica registry: connection-id → acknowledged offset.  (This is
how `worker.rs` uses `redis.replicas`: `insert(id, 0)`,
`insert(client_id, offset)`, `contains_key`, `len`, pair iteration.) -/
abbrev Registry := List (List Nat × Nat)

/-- Per-replica outbound channels: connection-id → queued frames. -/
abbrev Channels := List (List Nat × List RedisValue)

/-- Embedding of the `RedisCommand::Get` arm of `worker_process`
(`worker.rs` lines 68-86).  `none` models the panic of the
`String::from_utf8(..).unwrap()` key conversion on non-UTF-8 keys.
Returns the responses sent to the responder and the store afterwards. -/
def workerGet (store : Store) (key : List Nat) (now : Nat) :
    Option (List RedisValue × Store) :=
  (intoStringChecked key).map fun k =>
    match assocGet store k with
    | some item =>
      if item.expired_at = 0 ∨ now ≤ item.expired_at then ([item.value], store)
      else ([.BulkString none], assocRemove store k)
    | none => ([.BulkString none], store)

/-- Embedding of the store mutation and response of the
`RedisCommand::Set` arm of `worker_process` (`worker.rs` lines 141-159),
excluding the master-side fan-out, which `brocastToReplicas` models.
`expired_at` is `0` without `PX` and `px + now()` with it. -/
def workerSet (store : Store) (key value : List Nat) (px : Option Nat) (now : Nat) :
    Option (List RedisValue × Store) :=
  (intoStringChecked key).map fun k =>
    let expiredAt := match px with
      | none => 0
      | some px => px + now
    ([.SimpleString (strBytes "OK")],
      assocInsert store k ⟨.BulkString (some value), expiredAt⟩)

/-- Embedding of `brocast_to_replicas` (`worker.rs` lines 213-238): for
each registered replica, in registry order, look up its outbound channel
(`none` models the `channels.get(id).unwrap()` panic) and enqueue the
wire form of the command.  No offset counter exists to be advanced. -/
def brocastToReplicas (replicas : Registry) (channels : Channels)
    (command : RedisCommand) : Option Channels :=
  match replicas with
  | [] => some channels
  | (id, _) :: rest =>
    match assocGet channels id with
    | some q => brocastToReplicas rest (assocInsert channels id (q ++ [commandToValue command])) command
    | none => none

/-- Embedding of `Into<RedisValue> for ReplicationInfo` (`replica.rs`
lines 19-27): the INFO reply, whose `master_repl_offset` line is the
literal `0` from `format!("master_repl_offset:{}", 0)`. -/
def replicationInfoValue (role replicaId : List Nat) : RedisValue :=
  .BulkString (some (strBytes "# Replication" ++ [10] ++
    strBytes "role:" ++ role ++ [10] ++
    strBytes "master_replid:" ++ replicaId ++ [10] ++
    strBytes "master_repl_offset:" ++ serNat 0))

/-- Total serialized bytes sitting in all outbound channels (the
"total serialized bytes fanned out" of claim C3, for channels that start
empty). -/
def channelsTotalBytes (channels : Channels) : Nat :=
  (channels.map (fun c => ((c.2.map (fun v => (serialize v).length)).sum))).sum

/-- Embedding of the `RedisCommand::Replconf` arm of `worker_process`
(`worker.rs` lines 98-124): dispatch on the lowercased subkey; `getack`
answers with `[replconf, ack, <message offset>]`, `ack` parses the
argument as `u64` and updates the registry entry of this connection
without replying, anything else answers `+OK`.  `none` models the panics
(`String::from_utf8` / `parse().unwrap()` / `client_id.unwrap()`). -/
def workerReplconf (v1 v2 : List Nat) (clientId : Option (List Nat)) (msgOffset : Nat)
    (replicas : Registry) : Option (List RedisValue × Registry) :=
  (intoStringChecked v1).bind fun key =>
  let key := toLowerAscii key
  if key = strBytes "getack" then
    some ([.Array [.BulkString (some (strBytes "replconf")),
      .BulkString (some (strBytes "ack")),
      .BulkString (some (serNat msgOffset))]], replicas)
  else if key = strBytes "ack" then
    (intoStringChecked v2).bind fun v2s =>
    (parseU64 v2s).bind fun offset =>
    clientId.map fun cid => (([] : List RedisValue), assocInsert replicas cid offset)
  else
    some ([.SimpleString (strBytes "OK")], replicas)

/-- The 88-byte opaque baseline snapshot blob: the decoded value of the
base64 literal embedded in the `RedisCommand::Psync` arm of
`worker_process` (`worker.rs` line 137). -/
def rdbBlob : List Nat :=
  [82, 69, 68, 73, 83, 48, 48, 49, 49, 250, 9, 114, 101, 100, 105, 115, 45, 118, 101,
   114, 5, 55, 46, 50, 46, 48, 250, 10, 114, 101, 100, 105, 115, 45, 98, 105, 116,
   115, 192, 64, 250, 5, 99, 116, 105, 109, 101, 194, 109, 8, 188, 101, 250, 8, 117,
   115, 101, 100, 45, 109, 101, 109, 194, 176, 196, 16, 0, 250, 8, 97, 111, 102, 45,
   98, 97, 115, 101, 192, 0, 255, 240, 110, 59, 254, 192, 255, 90, 162]

/-- Embedding of the `RedisCommand::Psync` arm of `worker_process`
(`worker.rs` lines 125-140): register the *requesting connection's id*
with acknowledged offset `0` and respond
`+FULLRESYNC {client_id} 0` followed by the snapshot frame.  `none`
models the `client_id.unwrap()` panic. -/
def workerPsync (clientId : Option (List Nat)) (replicas : Registry) :
    Option (List RedisValue × Registry) :=
  clientId.map fun id =>
    ([.SimpleString (strBytes "FULLRESYNC " ++ id ++ strBytes " 0"), .Rdb rdbBlob],
      assocInsert replicas id 0)

/-- Embedding of the waiter task spawned by the `RedisCommand::Wait` arm
of `worker_process` (`worker.rs` lines 160-205).  Each registry /
clock / channel-map read is a fresh snapshot, indexed by the order the
reads happen: iteration `i` reads `regAt i` and `nowAt i`; the final
re-read after the break is `regAt (i + 1)`.  `some (some r)` = responded
with `r`; `some none` = the waiting client vanished and the task returned
without responding; `none` = fuel exhausted (the Rust loop polls with no
sleep and can spin forever).  Note the loop compares only
`replicas.len()` — acknowledged offsets are never read. -/
def waitRun (number timeout startedAt : Nat) (regAt : Nat → Registry)
    (nowAt : Nat → Nat) (clientAt : Nat → Bool) : Nat → Nat → Option (Option RedisValue)
  | 0, _ => none
  | fuel + 1, i =>
    if number ≤ (regAt i).length ∨ timeout < nowAt i - startedAt then
      some (some (.Integer (regAt (i + 1)).length))
    else if clientAt i then
      waitRun number timeout startedAt regAt nowAt clientAt fuel (i + 1)
    else some none

/-- The count the spec says WAIT must return: replicas whose acknowledged
offset reached the target offset.  Modelled from the spec's words
("k = |{R : acked-offset(R) ≥ offset-at-dispatch}|") for comparison with
the code's `waitRun`. -/
def specAckedCount (targetOffset : Nat) (replicas : Registry) : Nat :=
  (replicas.filter (fun e => targetOffset ≤ e.2)).length

/-- The responder test of the replica uplink loop
(`listen_to_master_progate`, `replica.rs` lines 114-126): only a
`Replconf` whose lowercased first argument is `getack` gets a responder.
`none` models the `Into<String>` panic on a non-UTF-8 subkey. -/
def responderFor (c : RedisCommand) : Option Bool :=
  match c with
  | .Replconf k _ => (intoStringChecked k).map fun key =>
      toLowerAscii key == strBytes "getack"
  | _ => some false

/-- Embedding of the read loop of `listen_to_master_progate`
(`replica.rs` lines 104-139) over an abstract trace of
`read_command` results `(command?, length)`: each produced worker message
is `(command, has-responder, offset)` where `offset` is the running
processed-offset *before* `offset += length` runs for this frame. -/
def progateMessages (offset : Nat) :
    List (Option RedisCommand × Nat) → Option (List (RedisCommand × Bool × Nat))
  | [] => some []
  | (c?, len) :: rest =>
    match c? with
    | none => progateMessages (offset + len) rest
    | some c =>
      (responderFor c).bind fun hasR =>
      (progateMessages (offset + len) rest).map fun ms => (c, hasR, offset) :: ms

/-! ## Supporting lemmas -/

theorem assocGet_insert_self {α : Type} (m : List (List Nat × α)) (k : List Nat) (v : α) :
    assocGet (assocInsert m k v) k = some v := by
  induction m with
  | nil => simp [assocGet, assocInsert]
  | cons e rest ih =>
    by_cases h : e.1 = k
    · simp [assocGet, assocInsert, h]
    · simpa [assocGet, assocInsert, h] using ih

theorem assocGet_insert_ne {α : Type} (m : List (List Nat × α)) (k k' : List Nat) (v : α)
    (h : k' ≠ k) : assocGet (assocInsert m k v) k' = assocGet m k' := by
  induction m with
  | nil => simp [assocGet, assocInsert, Ne.symm h]
  | cons e rest ih =>
    by_cases he : e.1 = k
    · simp [assocGet, assocInsert, he, Ne.symm h]
    · by_cases he' : e.1 = k'
      · simp [assocGet, assocInsert, he, he', h]
      · simpa [assocGet, assocInsert, he, he'] using ih

theorem assocGet_remove_self {α : Type} (m : List (List Nat × α)) (k : List Nat) :
    assocGet (assocRemove m k) k = none := by
  induction m with
  | nil => simp [assocGet, assocRemove]
  | cons e rest ih =>
    by_cases h : e.1 = k
    · simpa [assocRemove, h] using ih
    · simpa [assocGet, assocRemove, h] using ih

theorem assocGet_insert_isSome {α : Type} (m : List (List Nat × α)) (k k' : List Nat)
    (v : α) (h : (assocGet m k').isSome) : (assocGet (assocInsert m k v) k').isSome := by
  by_cases he : k' = k
  · subst he; simp [assocGet_insert_self]
  · simpa [assocGet_insert_ne m k k' v he] using h

theorem serNatCore_foldl (fuel : Nat) : ∀ n acc, n ≤ fuel →
    (serNatCore fuel n).foldl (fun a b => a * 10 + (b - 48)) acc =
      acc * 10 ^ (serNatCore fuel n).length + n := by
  induction fuel with
  | zero =>
    intro n acc h
    have hn : n = 0 := by omega
    subst hn
    simp [serNatCore]
  | succ f ih =>
    intro n acc h
    by_cases hn : n = 0
    · simp [serNatCore, hn]
    · have hdiv : n / 10 ≤ f := by omega
      rw [show serNatCore (f + 1) n = serNatCore f (n / 10) ++ [n % 10 + 48] by
        simp [serNatCore, hn]]
      rw [List.foldl_append]
      simp only [List.foldl_cons, List.foldl_nil]
      rw [ih (n / 10) acc hdiv]
      have hmod : n % 10 + 48 - 48 = n % 10 := by omega
      rw [hmod, List.length_append, List.length_singleton]
      rw [Nat.pow_succ, ← Nat.mul_assoc]
      have hdm := Nat.div_add_mod n 10
      omega

theorem serNat_foldl (n : Nat) :
    (serNat n).foldl (fun a b => a * 10 + (b - 48)) 0 = n := by
  by_cases hn : n = 0
  · simp [serNat, hn]
  · simp only [serNat, hn, if_false]
    simpa using serNatCore_foldl n n 0 le_rfl

theorem serNatCore_digits (fuel : Nat) : ∀ n, ∀ b ∈ serNatCore fuel n, 48 ≤ b ∧ b ≤ 57 := by
  induction fuel with
  | zero => intro n b hb; simp [serNatCore] at hb
  | succ f ih =>
    intro n b hb
    by_cases hn : n = 0
    · simp [serNatCore, hn] at hb
    · simp only [serNatCore, hn, if_false, List.mem_append, List.mem_singleton] at hb
      rcases hb with hb | hb
      · exact ih (n / 10) b hb
      · subst hb; have := Nat.mod_lt n (show 0 < 10 by decide); omega

theorem serNat_digits (n : Nat) : ∀ b ∈ serNat n, 48 ≤ b ∧ b ≤ 57 := by
  by_cases hn : n = 0
  · intro b hb; simp [serNat, hn] at hb; omega
  · intro b hb
    simp only [serNat, hn, if_false] at hb
    exact serNatCore_digits n n b hb

theorem serNat_ne_nil (n : Nat) : serNat n ≠ [] := by
  by_cases hn : n = 0
  · simp [serNat, hn]
  · simp only [serNat, hn, if_false]
    obtain ⟨f, hf⟩ : ∃ f, n = f + 1 := ⟨n - 1, by omega⟩
    subst hf
    simp [serNatCore, hn]

theorem parseU64_serNat (n : Nat) (h : n < 2 ^ 64) : parseU64 (serNat n) = some n := by
  have hd := serNat_digits n
  have hne := serNat_ne_nil n
  have hall : (serNat n).all (fun b => decide (48 ≤ b ∧ b ≤ 57)) = true := by
    rw [List.all_eq_true]
    intro b hb
    exact decide_eq_true (hd b hb)
  have hhead : (match serNat n with
      | 43 :: rest => rest
      | _ => serNat n) = serNat n := by
    split
    · next r heq =>
      have hmem : (43 : Nat) ∈ serNat n := by rw [heq]; exact List.mem_cons_self 43 r
      have := hd 43 hmem
      omega
    · rfl
  simp only [parseU64, hhead, hne, if_false, hall, if_true, serNat_foldl n, h, if_pos]

/-! ## Claim C5: SET with PX followed by GET -/

/-- **C5** (confirmed): after `SET k v PX t` at wall-clock `now0`, a GET at
`now1` strictly after `now0 + t` answers the null bulk string and removes
the entry, a GET strictly before answers `v`, and an entry stored without
`PX` (`expired_at = 0`) is never expired by any later GET.  The
hypotheses: the key converts (`String::from_utf8` succeeds — its failure
is claim C9's subject) and the wall clock is positive (Rust's
`utilities::now()` is milliseconds since the epoch, so `now0 + t = 0`
cannot make a `PX` entry look eternal). -/
theorem c5_set_px_get_expiry (store : Store) (k v : List Nat) (t now0 now1 : Nat)
    (hk : validUtf8 k = true) (h0 : 0 < now0) :
    (∀ r S1, workerSet store k v (some t) now0 = some (r, S1) →
      (now0 + t < now1 →
        workerGet S1 k now1 = some ([.BulkString none], assocRemove S1 k) ∧
        assocGet (assocRemove S1 k) k = (none : Option StoreItem)) ∧
      (now1 < now0 + t →
        workerGet S1 k now1 = some ([.BulkString (some v)], S1))) ∧
    (∀ r S1, workerSet store k v none now0 = some (r, S1) →
      workerGet S1 k now1 = some ([.BulkString (some v)], S1)) := by
  constructor
  · intro r S1 hset
    simp only [workerSet, intoStringChecked, hk, if_true, Option.map_some',
      Option.some.injEq, Prod.mk.injEq] at hset
    obtain ⟨hr, hS⟩ := hset
    subst hS
    constructor
    · intro hafter
      have hcond : ¬(t + now0 = 0 ∨ now1 ≤ t + now0) := by omega
      constructor
      · simp [workerGet, intoStringChecked, hk, assocGet_insert_self, hcond]
        omega
      · exact assocGet_remove_self _ k
    · intro hbefore
      have hcond : (t + now0 = 0 ∨ now1 ≤ t + now0) := Or.inr (by omega)
      simp [workerGet, intoStringChecked, hk, assocGet_insert_self, hcond]
      omega
  · intro r S1 hset
    simp only [workerSet, intoStringChecked, hk, if_true, Option.map_some',
      Option.some.injEq, Prod.mk.injEq] at hset
    obtain ⟨hr, hS⟩ := hset
    subst hS
    simp [workerGet, intoStringChecked, hk, assocGet_insert_self]

/-- Witness for C5: `SET k v PX 5` at time 10, GET at time 16 (strictly
after 10 + 5) answers null and removes the entry. -/
theorem c5_witness :
    workerGet (assocInsert ([] : Store) (strBytes "k")
        ⟨.BulkString (some (strBytes "v")), 5 + 10⟩) (strBytes "k") 16 =
      some ([.BulkString none],
        assocRemove (assocInsert ([] : Store) (strBytes "k")
          ⟨.BulkString (some (strBytes "v")), 5 + 10⟩) (strBytes "k")) := by
  have h := (c5_set_px_get_expiry [] (strBytes "k") (strBytes "v") 5 10 16 (by decide)
    (by decide)).1 [.SimpleString (strBytes "OK")]
    (assocInsert [] (strBytes "k") ⟨.BulkString (some (strBytes "v")), 5 + 10⟩) rfl
  exact (h.1 (by decide)).1

/-! ## Claim C9: key handling is not total over byte strings -/

/-- **C9** (counterexample): the claim says GET and SET complete for
*every* byte-sequence key.  But both convert the key with
`String::from_utf8(..).unwrap()`, which panics on the non-UTF-8 key
`[0xFF]` (here: the embedded conversion yields `none`). -/
theorem c9_counterexample :
    workerGet [] [255] 5 = none ∧ workerSet [] [255] [97] none 5 = none :=
  ⟨rfl, rfl⟩

/-- **C9** (amended): GET and SET complete for every key that is valid
UTF-8 (invalid keys panic in the key conversion), and such keys are
matched byte-for-byte: a SET of `k` leaves the GET responses of every
other byte sequence `k2 ≠ k` unchanged (no case folding or other
normalisation), while a GET of exactly `k` after a no-expiry SET answers
`v`. -/
theorem c9_keys_amended (store : Store) (k k2 v : List Nat) (px : Option Nat)
    (now now1 : Nat) (hk : validUtf8 k = true) (hk2 : validUtf8 k2 = true) :
    (workerGet store k now).isSome = true ∧
    (workerSet store k v px now).isSome = true ∧
    (∀ r S1, workerSet store k v px now = some (r, S1) →
      (k2 ≠ k → (workerGet S1 k2 now1).map Prod.fst =
        (workerGet store k2 now1).map Prod.fst) ∧
      (k2 = k → px = none →
        workerGet S1 k2 now1 = some ([.BulkString (some v)], S1))) := by
  refine ⟨by simp [workerGet, intoStringChecked, hk], by simp [workerSet, intoStringChecked, hk], ?_⟩
  intro r S1 hset
  simp only [workerSet, intoStringChecked, hk, if_true, Option.map_some',
    Option.some.injEq, Prod.mk.injEq] at hset
  obtain ⟨hr, hS⟩ := hset
  subst hS
  constructor
  · intro hne
    simp only [workerGet, intoStringChecked, hk2, if_true, Option.map_some']
    rw [assocGet_insert_ne store k k2 _ hne]
    cases assocGet store k2 with
    | none => simp
    | some item =>
      by_cases hcond : item.expired_at = 0 ∨ now1 ≤ item.expired_at
      · simp [hcond]
      · simp [hcond]
  · intro heq hpx
    subst heq hpx
    simp [workerGet, intoStringChecked, hk2, assocGet_insert_self]

/-- Witness for C9 (amended): key `k` (valid UTF-8) works, and a SET of
`k` does not affect a GET of the differently-cased key `K`. -/
theorem c9_witness :
    (workerGet ([] : Store) [107] 0).isSome = true ∧
    (workerGet (assocInsert ([] : Store) [107] ⟨.BulkString (some [118]), 0⟩) [75] 3).map
        Prod.fst = (workerGet ([] : Store) [75] 3).map Prod.fst := by
  have h := c9_keys_amended [] [107] [75] [118] none 0 3 (by decide) (by decide)
  refine ⟨h.1, ?_⟩
  have h3 := (h.2.2 [.SimpleString (strBytes "OK")]
    (assocInsert [] [107] ⟨.BulkString (some [118]), 0⟩) rfl).1 (by decide)
  exact h3

/-! ## Claim C2: the WAIT response counts registered replicas, not acks -/

/-- **C2** (counterexample): one replica is registered with acknowledged
offset `0`.  With target offset `10` (a write of 10 bytes was fanned out
before the WAIT dispatch), the spec's count
`|{R : acked-offset(R) ≥ 10}|` is `0`, yet the waiter responds with the
registry *size* `1`: the loop in the `Wait` arm compares
`replicas.len()` against `n` and never reads an offset. -/
theorem c2_counterexample :
    waitRun 1 5 0 (fun _ => [(strBytes "r", 0)]) (fun _ => 0) (fun _ => true) 3 0 =
      some (some (.Integer 1)) ∧
    specAckedCount 10 [(strBytes "r", 0)] = 0 ∧
    RedisValue.Integer 1 ≠ .Integer (specAckedCount 10 [(strBytes "r", 0)]) :=
  ⟨rfl, rfl, by simp [specAckedCount]⟩

/-- **C2** (amended): whenever the waiter task responds, the response is
the integer `(regAt (i+1)).length` — the *number of registered replicas*
at the final registry read after the loop broke at iteration `i` —
irrespective of any acknowledged offsets; the break happens at the first
iteration whose registry size reaches `n` or whose elapsed time exceeds
`t`, every earlier iteration having seen neither condition and the
waiting client still present.  (No poll-interval bound is modelled: the
Rust loop busy-polls with no sleep.) -/
theorem c2_wait_amended (number timeout startedAt : Nat) (regAt : Nat → Registry)
    (nowAt : Nat → Nat) (clientAt : Nat → Bool) :
    ∀ fuel start r,
      waitRun number timeout startedAt regAt nowAt clientAt fuel start = some (some r) →
      ∃ i, start ≤ i ∧ r = .Integer (regAt (i + 1)).length ∧
        (number ≤ (regAt i).length ∨ timeout < nowAt i - startedAt) ∧
        ∀ j, start ≤ j → j < i →
          ¬(number ≤ (regAt j).length ∨ timeout < nowAt j - startedAt) ∧
            clientAt j = true := by
  intro fuel
  induction fuel with
  | zero => intro start r h; simp [waitRun] at h
  | succ f ih =>
    intro start r h
    rw [waitRun] at h
    by_cases hc : number ≤ (regAt start).length ∨ timeout < nowAt start - startedAt
    · rw [if_pos hc] at h
      simp only [Option.some.injEq] at h
      refine ⟨start, le_rfl, h.symm, hc, ?_⟩
      intro j h1 h2
      omega
    · rw [if_neg hc] at h
      by_cases hcl : clientAt start = true
      · rw [if_pos hcl] at h
        obtain ⟨i, hle, hr, hbreak, hprior⟩ := ih (start + 1) r h
        refine ⟨i, by omega, hr, hbreak, ?_⟩
        intro j h1 h2
        by_cases hj : j = start
        · subst hj; exact ⟨hc, hcl⟩
        · exact hprior j (by omega) h2
      · rw [if_neg hcl] at h
        simp at h

/-- Witness for C2 (amended): the concrete run of `c2_counterexample`
satisfies the amended characterisation. -/
theorem c2_witness :
    waitRun 1 5 0 (fun _ => [(strBytes "r", 0)]) (fun _ => 0) (fun _ => true) 3 0 =
      some (some (.Integer 1)) ∧
    ∃ i, 0 ≤ i ∧ RedisValue.Integer 1 = .Integer ([(strBytes "r", 0)] : Registry).length ∧
      (1 ≤ ([(strBytes "r", 0)] : Registry).length ∨ 5 < 0 - 0) ∧
      ∀ j, 0 ≤ j → j < i →
        ¬(1 ≤ ([(strBytes "r", 0)] : Registry).length ∨ 5 < 0 - 0) ∧ true = true := by
  refine ⟨rfl, ?_⟩
  obtain ⟨i, h1, h2, h3, h4⟩ := c2_wait_amended 1 5 0 (fun _ => [(strBytes "r", 0)])
    (fun _ => 0) (fun _ => true) 3 0 (.Integer 1) rfl
  exact ⟨i, h1, h2, h3, fun j hj1 hj2 => h4 j hj1 hj2⟩

/-! ## Claim C3: fan-out advances no offset counter; INFO reports 0 -/

/-- **C3** (counterexample): one replica attached with an empty outbound
channel; the executor fans out `SET k v`.  The enqueued frame serializes
to 27 bytes, so the claim demands `master-repl-offset = 27` as reported
by INFO — but the code keeps *no* offset counter at all:
`brocast_to_replicas` only enqueues, and the INFO reply hard-codes
`master_repl_offset:0` (`format!("master_repl_offset:{}", 0)`). -/
theorem c3_counterexample :
    brocastToReplicas [(strBytes "r", 0)] [(strBytes "r", [])]
        (.Set (strBytes "k") (strBytes "v") none) =
      some [(strBytes "r", [commandToValue (.Set (strBytes "k") (strBytes "v") none)])] ∧
    channelsTotalBytes
        [(strBytes "r", [commandToValue (.Set (strBytes "k") (strBytes "v") none)])] = 27 ∧
    replicationInfoValue (strBytes "master") (strBytes "r") =
      .BulkString (some (strBytes
        "# Replication\nrole:master\nmaster_replid:r\nmaster_repl_offset:0")) ∧
    (27 : Nat) ≠ 0 := by
  refine ⟨rfl, ?_, ?_, by decide⟩
  · simp [channelsTotalBytes, commandToValue, serialize, serializeList, serNat, serNatCore,
      strBytes]
  · simp [replicationInfoValue, strBytes, serNat, serNatCore]

/-- Auxiliary for C3: characterisation of `brocast_to_replicas` as a fold
over the registry. -/
theorem brocast_spec (replicas : Registry) : ∀ channels : Channels, ∀ cmd : RedisCommand,
    (replicas.map Prod.fst).Nodup →
    (∀ e ∈ replicas, (assocGet channels e.1).isSome = true) →
    ∃ channels', brocastToReplicas replicas channels cmd = some channels' ∧
      (∀ e ∈ replicas, assocGet channels' e.1 =
        (assocGet channels e.1).map (fun q => q ++ [commandToValue cmd])) ∧
      (∀ id, id ∉ replicas.map Prod.fst → assocGet channels' id = assocGet channels id) := by
  induction replicas with
  | nil => exact fun channels cmd _ _ => ⟨channels, rfl, by simp, fun id h => rfl⟩
  | cons e rest ih =>
    intro channels cmd hnodup hch
    obtain ⟨q, hq⟩ : ∃ q, assocGet channels e.1 = some q := by
      have := hch e (List.mem_cons_self e rest)
      cases hx : assocGet channels e.1 with
      | none => rw [hx] at this; simp at this
      | some q => exact ⟨q, rfl⟩
    simp only [List.map_cons, List.nodup_cons] at hnodup
    have hmemrest : e.1 ∉ rest.map Prod.fst := hnodup.1
    obtain ⟨ch', hb, hmem, hout⟩ := ih (assocInsert channels e.1 (q ++ [commandToValue cmd]))
      cmd hnodup.2 (fun x hx =>
        assocGet_insert_isSome channels e.1 x.1 (q ++ [commandToValue cmd])
          (hch x (List.mem_cons_of_mem e hx)))
    refine ⟨ch', ?_, ?_, ?_⟩
    · cases e with
      | mk id off =>
        simp only [brocastToReplicas, hq]
        exact hb
    · intro x hx
      rcases List.mem_cons.mp hx with hx | hx
      · subst hx
        rw [hout x.1 hmemrest, assocGet_insert_self, hq]
        rfl
      · have hxne : x.1 ≠ e.1 := by
          intro hcontra
          exact hmemrest (hcontra ▸ List.mem_map_of_mem Prod.fst hx)
        rw [hmem x hx, assocGet_insert_ne channels e.1 x.1 _ hxne]
    · intro id hid
      simp only [List.map_cons, List.mem_cons, not_or] at hid
      rw [hout id hid.2, assocGet_insert_ne channels e.1 id _ hid.1]

/-- **C3** (amended): a master-side write is fanned out by appending the
serialized command to the outbound channel of *every* registered replica
(all other channels untouched) while advancing no counter — the INFO
reply's offset line is the constant `master_repl_offset:0` for every role
and replica id. -/
theorem c3_brocast_amended (replicas : Registry) (channels : Channels) (cmd : RedisCommand)
    (hnodup : (replicas.map Prod.fst).Nodup)
    (hch : ∀ e ∈ replicas, (assocGet channels e.1).isSome = true) :
    (∃ channels', brocastToReplicas replicas channels cmd = some channels' ∧
      (∀ e ∈ replicas, assocGet channels' e.1 =
        (assocGet channels e.1).map (fun q => q ++ [commandToValue cmd])) ∧
      (∀ id, id ∉ replicas.map Prod.fst → assocGet channels' id = assocGet channels id)) ∧
    (∀ role rid, ∃ pfx, replicationInfoValue role rid =
      .BulkString (some (pfx ++ strBytes "master_repl_offset:0"))) := by
  refine ⟨brocast_spec replicas channels cmd hnodup hch, ?_⟩
  intro role rid
  refine ⟨strBytes "# Replication" ++ [10] ++ strBytes "role:" ++ role ++ [10] ++
    strBytes "master_replid:" ++ rid ++ [10], ?_⟩
  simp [replicationInfoValue, strBytes, serNat, serNatCore, List.append_assoc]

/-- Witness for C3 (amended): the concrete one-replica scenario of
`c3_counterexample` instantiates the amended theorem. -/
theorem c3_witness :
    (∃ channels', brocastToReplicas [(strBytes "r", 0)] [(strBytes "r", [])]
        (.Set (strBytes "k") (strBytes "v") none) = some channels' ∧
      (∀ e ∈ ([(strBytes "r", 0)] : Registry), assocGet channels' e.1 =
        (assocGet [(strBytes "r", [])] e.1).map
          (fun q => q ++ [commandToValue (.Set (strBytes "k") (strBytes "v") none)])) ∧
      (∀ id, id ∉ ([(strBytes "r", 0)] : Registry).map Prod.fst →
        assocGet channels' id = assocGet [(strBytes "r", [])] id)) ∧
    (∀ role rid, ∃ pfx, replicationInfoValue role rid =
      .BulkString (some (pfx ++ strBytes "master_repl_offset:0"))) :=
  c3_brocast_amended [(strBytes "r", 0)] [(strBytes "r", [])]
    (.Set (strBytes "k") (strBytes "v") none) (by decide) (by decide)

/-! ## Claim C6: PSYNC echoes the connection id, not a fixed token -/

/-- **C6** (counterexample): the claim says the repl-id in
`FULLRESYNC <repl-id> 0` is one fixed token per process.  But the `Psync`
arm formats `message.client_id` — the requesting connection's id — into
the reply, so two connections with different ids (`a` and `b` below)
receive different `FULLRESYNC` lines and no single token can satisfy the
claim.  (INFO likewise reports the *requester's* id as `master_replid`.) -/
theorem c6_counterexample :
    workerPsync (some [97]) [] =
      some ([.SimpleString (strBytes "FULLRESYNC " ++ [97] ++ strBytes " 0"), .Rdb rdbBlob],
        assocInsert [] [97] 0) ∧
    workerPsync (some [98]) [] =
      some ([.SimpleString (strBytes "FULLRESYNC " ++ [98] ++ strBytes " 0"), .Rdb rdbBlob],
        assocInsert [] [98] 0) ∧
    (strBytes "FULLRESYNC " ++ [97] ++ strBytes " 0" : List Nat) ≠
      strBytes "FULLRESYNC " ++ [98] ++ strBytes " 0" :=
  ⟨rfl, rfl, by simp [strBytes]⟩

/-- **C6** (amended): PSYNC registers the requesting connection's id in
the replica registry with acknowledged offset `0` and responds with the
simple string `FULLRESYNC {client-id} 0` followed by a snapshot frame
carrying the fixed 88-byte baseline blob; a snapshot frame serializes as
`$`, the decimal payload length, CRLF and the raw payload, i.e. exactly
a bulk string minus the trailing CRLF. -/
theorem c6_psync_amended (id : List Nat) (reg : Registry) :
    workerPsync (some id) reg =
      some ([.SimpleString (strBytes "FULLRESYNC " ++ id ++ strBytes " 0"), .Rdb rdbBlob],
        assocInsert reg id 0) ∧
    assocGet (assocInsert reg id 0) id = some 0 ∧
    rdbBlob.length = 88 ∧
    (∀ c : List Nat, serialize (.Rdb c) ++ [13, 10] = serialize (.BulkString (some c))) ∧
    serialize (.Rdb rdbBlob) = 36 :: (serNat 88 ++ [13, 10] ++ rdbBlob) := by
  refine ⟨rfl, assocGet_insert_self reg id 0, by decide, ?_, ?_⟩
  · intro c
    simp [serialize, List.append_assoc]
  · rw [show serialize (.Rdb rdbBlob) = 36 :: (serNat rdbBlob.length ++ [13, 10] ++ rdbBlob)
      from by simp [serialize]]
    rw [show rdbBlob.length = 88 from by decide]

/-! ## Claim C7: REPLCONF dispatch -/

/-- Auxiliary for C7: in the replica uplink loop, the message built for a
frame carries the processed offset accumulated *before* that frame (the
sum of all earlier frame lengths, commands present or not). -/
theorem progateMessages_offset (pre : List (Option RedisCommand × Nat)) :
    ∀ (off len : Nat) (c : RedisCommand) (hasR : Bool)
      (rest : List (Option RedisCommand × Nat)) (msgs : List (RedisCommand × Bool × Nat)),
      responderFor c = some hasR →
      progateMessages off (pre ++ (some c, len) :: rest) = some msgs →
      ∃ ms1 ms2, msgs = ms1 ++ (c, hasR, off + (pre.map Prod.snd).sum) :: ms2 := by
  induction pre with
  | nil =>
    intro off len c hasR rest msgs hresp h
    simp only [List.nil_append, progateMessages, hresp, Option.some_bind] at h
    cases hrest : progateMessages (off + len) rest with
    | none => rw [hrest] at h; simp at h
    | some ms =>
      rw [hrest] at h
      simp only [Option.map_some', Option.some.injEq] at h
      exact ⟨[], ms, by simp [← h]⟩
  | cons p pre' ih =>
    intro off len c hasR rest msgs hresp h
    cases p with
    | mk c? plen =>
      cases c? with
      | none =>
        simp only [List.cons_append, progateMessages, List.append_eq] at h
        obtain ⟨ms1, ms2, hms⟩ := ih (off + plen) len c hasR rest msgs hresp h
        refine ⟨ms1, ms2, ?_⟩
        rw [hms]
        simp only [List.map_cons, List.sum_cons]
        rw [Nat.add_assoc]
      | some pc =>
        simp only [List.cons_append, progateMessages, List.append_eq] at h
        cases hr : responderFor pc with
        | none => rw [hr] at h; simp at h
        | some pr =>
          rw [hr] at h
          simp only [Option.some_bind] at h
          cases hrest : progateMessages (off + plen) (pre' ++ (some c, len) :: rest) with
          | none => rw [hrest] at h; simp at h
          | some ms =>
            rw [hrest] at h
            simp only [Option.map_some', Option.some.injEq] at h
            obtain ⟨ms1, ms2, hms⟩ := ih (off + plen) len c hasR rest ms hresp hrest
            refine ⟨(pc, pr, off) :: ms1, ms2, ?_⟩
            rw [← h, hms]
            simp only [List.cons_append, List.map_cons, List.sum_cons]
            rw [Nat.add_assoc]

/-- **C7** (confirmed): REPLCONF dispatches on the lowercased subkey:
`getack` answers the array `[replconf, ack, <decimal message offset>]`
and leaves the registry alone; `ack` parses its argument as a `u64`,
updates this connection's registry entry and sends no reply; every other
*ASCII* subkey answers `+OK`.  And the offset a `getack` reply reports is
the offset field of the worker message, which the replica uplink loop
sets to the processed offset *before* adding the current frame's length.
(`toLowerAscii` models Rust's `to_lowercase` only on ASCII input: a
subkey whose `toLowerAscii` image is `getack`/`ack` is necessarily ASCII,
so the first two legs are exact, but the catch-all leg is restricted to
ASCII subkeys because Rust's Unicode lowercasing can fold a non-ASCII
subkey — e.g. `getac` + U+212A KELVIN SIGN — into `getack`.) -/
theorem c7_replconf_dispatch :
    (∀ (sub arg : List Nat) (cid : Option (List Nat)) (off : Nat) (reg : Registry),
      validUtf8 sub = true → toLowerAscii sub = strBytes "getack" →
      workerReplconf sub arg cid off reg =
        some ([.Array [.BulkString (some (strBytes "replconf")),
          .BulkString (some (strBytes "ack")),
          .BulkString (some (serNat off))]], reg)) ∧
    (∀ (sub arg : List Nat) (cid : List Nat) (off n : Nat) (reg : Registry),
      validUtf8 sub = true → toLowerAscii sub = strBytes "ack" →
      validUtf8 arg = true → parseU64 arg = some n →
      workerReplconf sub arg (some cid) off reg = some ([], assocInsert reg cid n) ∧
      assocGet (assocInsert reg cid n) cid = some n) ∧
    (∀ (sub arg : List Nat) (cid : Option (List Nat)) (off : Nat) (reg : Registry),
      (∀ b ∈ sub, b < 128) → validUtf8 sub = true →
      toLowerAscii sub ≠ strBytes "getack" → toLowerAscii sub ≠ strBytes "ack" →
      workerReplconf sub arg cid off reg = some ([.SimpleString (strBytes "OK")], reg)) ∧
    (∀ (pre : List (Option RedisCommand × Nat)) (len : Nat)
       (rest : List (Option RedisCommand × Nat)) (msgs : List (RedisCommand × Bool × Nat)),
      progateMessages 0 (pre ++ (some (.Replconf (strBytes "GETACK") (strBytes "*")), len)
          :: rest) = some msgs →
      ∃ ms1 ms2, msgs =
        ms1 ++ (.Replconf (strBytes "GETACK") (strBytes "*"), true,
          (pre.map Prod.snd).sum) :: ms2) := by
  refine ⟨?_, ?_, ?_, ?_⟩
  · intro sub arg cid off reg hv hsub
    simp [workerReplconf, intoStringChecked, hv, hsub]
  · intro sub arg cid off n reg hv hsub hva hn
    have hne : strBytes "ack" ≠ strBytes "getack" := by decide
    constructor
    · simp [workerReplconf, intoStringChecked, hv, hsub, hne, hva, hn]
    · exact assocGet_insert_self reg cid n
  · intro sub arg cid off reg hascii hv h1 h2
    simp [workerReplconf, intoStringChecked, hv, h1, h2]
  · intro pre len rest msgs h
    have hresp : responderFor (.Replconf (strBytes "GETACK") (strBytes "*")) = some true := by
      decide
    simpa using progateMessages_offset pre 0 len _ true rest msgs hresp h

/-- Witness for C7: a `GETACK` subkey (uppercase) with message offset 31
answers `[replconf, ack, "31"]`; an `ack 42` from replica `r` updates the
registry to 42 without a reply; `listening-port` answers `+OK`; and in a
trace where a 31-byte SET precedes the getack frame, the getack message
carries offset 31. -/
theorem c7_witness :
    workerReplconf (strBytes "GETACK") (strBytes "*") none 31 [] =
      some ([.Array [.BulkString (some (strBytes "replconf")),
        .BulkString (some (strBytes "ack")),
        .BulkString (some (serNat 31))]], []) ∧
    workerReplconf (strBytes "ack") (strBytes "42") (some (strBytes "r")) 0 [] =
      some ([], assocInsert [] (strBytes "r") 42) ∧
    workerReplconf (strBytes "listening-port") (strBytes "6380") none 0 [] =
      some ([.SimpleString (strBytes "OK")], []) ∧
    ∃ ms1 ms2, [(RedisCommand.Set (strBytes "k") (strBytes "v") none, false, 0),
        (.Replconf (strBytes "GETACK") (strBytes "*"), true, 31)] =
      ms1 ++ (RedisCommand.Replconf (strBytes "GETACK") (strBytes "*"), true,
        (([(some (RedisCommand.Set (strBytes "k") (strBytes "v") none), 31)] :
          List (Option RedisCommand × Nat)).map Prod.snd).sum) :: ms2 := by
  refine ⟨?_, ?_, ?_, ?_⟩
  · exact c7_replconf_dispatch.1 (strBytes "GETACK") (strBytes "*") none 31 []
      (by decide) (by decide)
  · exact (c7_replconf_dispatch.2.1 (strBytes "ack") (strBytes "42") (strBytes "r") 0 42 []
      (by decide) (by decide) (by decide) (by decide)).1
  · exact c7_replconf_dispatch.2.2.1 (strBytes "listening-port") (strBytes "6380") none 0 []
      (by decide) (by decide) (by decide) (by decide)
  · exact c7_replconf_dispatch.2.2.2
      [(some (RedisCommand.Set (strBytes "k") (strBytes "v") none), 31)] 7 []
      [(RedisCommand.Set (strBytes "k") (strBytes "v") none, false, 0),
        (.Replconf (strBytes "GETACK") (strBytes "*"), true, 31)] rfl

/-! ## Claim C10: the SET option keyword is never inspected -/

/-- **C10** (confirmed): a SET whose array carries exactly four arguments
(`k`, `v`, option keyword, time) parses the *fourth* argument as a
decimal expiry no matter what the third argument is — here `a3` ranges
over arbitrary frames, not even bulk strings — while a SET with exactly
three arguments is rejected with `DismatchedArgsNum(4, 3)` whatever the
arguments are. -/
theorem c10_set_dispatch (name k v a4 : List Nat) (a3 : RedisValue) (t : Nat)
    (hv : validUtf8 name = true) (hname : toLowerAscii name = strBytes "set")
    (hva : validUtf8 a4 = true) (ht : parseU64 a4 = some t) :
    tryIntoCommand (.Array [.BulkString (some name), .BulkString (some k),
        .BulkString (some v), a3, .BulkString (some a4)]) =
      some (.ok (.Set k v (some t))) ∧
    ∀ b1 b2 b3 : RedisValue,
      tryIntoCommand (.Array [.BulkString (some name), b1, b2, b3]) =
        some (.error (.DismatchedArgsNum 4 3)) := by
  have h1 : strBytes "set" ≠ strBytes "ping" := by decide
  have h2 : strBytes "set" ≠ strBytes "echo" := by decide
  have h3 : strBytes "set" ≠ strBytes "get" := by decide
  constructor
  · simp [tryIntoCommand, intoStringChecked, hv, hname, h1, h2, h3, hva, ht]
  · intro b1 b2 b3
    simp [tryIntoCommand, intoStringChecked, hv, hname, h1, h2, h3]

/-- Witness for C10: `SET k v <Integer 7> 100` — the third argument is
not even a bulk string, let alone the keyword `px` — parses as
`Set k v (Some 100)`, and `SET k v px` (three arguments) is rejected.
-/
theorem c10_witness :
    tryIntoCommand (.Array [.BulkString (some (strBytes "SET")),
        .BulkString (some (strBytes "k")), .BulkString (some (strBytes "v")),
        .Integer 7, .BulkString (some (strBytes "100"))]) =
      some (.ok (.Set (strBytes "k") (strBytes "v") (some 100))) ∧
    tryIntoCommand (.Array [.BulkString (some (strBytes "SET")),
        .BulkString (some (strBytes "k")), .BulkString (some (strBytes "v")),
        .BulkString (some (strBytes "px"))]) =
      some (.error (.DismatchedArgsNum 4 3)) := by
  have h := c10_set_dispatch (strBytes "SET") (strBytes "k") (strBytes "v")
    (strBytes "100") (.Integer 7) 100 (by decide) (by decide) (by decide) (by decide)
  exact ⟨h.1, h.2 (.BulkString (some (strBytes "k"))) (.BulkString (some (strBytes "v")))
    (.BulkString (some (strBytes "px")))⟩

/-! ## Claim C1: the parse/serialize round trip -/

/-- A frame whose parse finishes without draining earlier siblings from
the value buffer: atoms and the empty array (a completing array takes the
*first* `n` buffered values, so a non-empty array mid-buffer steals its
siblings). -/
def isCtxFree : RedisValue → Bool
  | .Array l => l.isEmpty
  | _ => true

/-- The frames whose serialization the parser maps back to themselves
(fresh parser): CR-free valid-UTF-8 simple strings, non-empty bulk
strings, and arrays whose children satisfy the same condition with every
child after the first context-free.  Null bulk strings, integers and
snapshot frames are excluded — `parse` cannot read back what the
serializer emits for them — as are empty bulk strings (the content loop
always consumes one byte before comparing against the declared length). -/
def Rt : RedisValue → Bool
  | .SimpleString s => !(s.contains 13) && validUtf8 s
  | .BulkString none => false
  | .BulkString (some d) => !d.isEmpty
  | .Integer _ => false
  | .Rdb _ => false
  | .Array [] => true
  | .Array (c :: cs) => Rt c && cs.all isCtxFree && Rt (.Array cs)

mutual

/-- Exact number of `parse_loop` iterations consumed by a serialized
round-trippable frame. -/
def cost : RedisValue → Nat
  | .SimpleString s => s.length + 3
  | .BulkString none => 0
  | .BulkString (some d) => (serNat d.length).length + d.length + 7
  | .Integer _ => 0
  | .Rdb _ => 0
  | .Array cs => (serNat cs.length).length + 6 + cs.length + costList cs

/-- Sum of the children's costs. -/
def costList : List RedisValue → Nat
  | [] => 0
  | v :: vs => cost v + costList vs

end

theorem getElemAt (pre : List Nat) (b : Nat) (tail : List Nat) :
    (pre ++ b :: tail)[pre.length]? = some b := by
  rw [List.getElem?_append_right le_rfl]
  simp

theorem serialize_length_pos (v : RedisValue) : 1 ≤ (serialize v).length := by
  cases v with
  | BulkString s => cases s <;> simp [serialize]
  | _ => simp [serialize]

theorem serNat_length_pos (n : Nat) : 1 ≤ (serNat n).length :=
  List.length_pos.mpr (serNat_ne_nil n)

mutual

theorem cost_le (v : RedisValue) : cost v + 2 ≤ 4 * (serialize v).length := by
  cases v with
  | SimpleString s => simp [cost, serialize]; omega
  | BulkString s =>
    cases s with
    | none => simp [cost, serialize]
    | some d =>
      have := serNat_length_pos d.length
      simp [cost, serialize]
      omega
  | Integer i => have := serialize_length_pos (.Integer i); simp [cost]; omega
  | Rdb c => have := serialize_length_pos (.Rdb c); simp [cost]; omega
  | Array cs =>
    have h1 := costList_le cs
    have h2 := serNat_length_pos cs.length
    simp [cost, serialize]
    omega

theorem costList_le (l : List RedisValue) :
    costList l + 2 * l.length ≤ 4 * (serializeList l).length := by
  cases l with
  | nil => simp [costList, serializeList]
  | cons v vs =>
    have h1 := cost_le v
    have h2 := costList_le vs
    simp [costList, serializeList]
    omega

end

/-! ## C1: positional byte lookups and straight-line run lemmas -/

theorem getElemAtOne (pre : List Nat) (b c : Nat) (tail : List Nat) :
    (pre ++ b :: c :: tail)[pre.length + 1]? = some c := by
  have h := getElemAt (pre ++ [b]) c tail
  simpa using h

theorem getElemAtTwo (pre : List Nat) (a b c : Nat) (tail : List Nat) :
    (pre ++ a :: b :: c :: tail)[pre.length + 2]? = some c := by
  have h := getElemAt (pre ++ [a, b]) c tail
  simpa [Nat.add_assoc] using h

theorem getElemBangAt (pre : List Nat) (b : Nat) (tail : List Nat)
    (h : pre.length < (pre ++ b :: tail).length) :
    (pre ++ b :: tail)[pre.length] = b := by
  rw [List.getElem_append_right le_rfl]
  simp

theorem getElemBangAtOne (pre : List Nat) (b c : Nat) (tail : List Nat)
    (h : pre.length + 1 < (pre ++ b :: c :: tail).length) :
    (pre ++ b :: c :: tail)[pre.length + 1] = c := by
  have h2 : pre.length + 1 < ((pre ++ [b]) ++ c :: tail).length := by simpa using h
  have h3 := getElemBangAt (pre ++ [b]) c tail (by simpa using h2)
  simpa using h3

theorem getElemBangAtTwo (pre : List Nat) (a b c : Nat) (tail : List Nat)
    (h : pre.length + 2 < (pre ++ a :: b :: c :: tail).length) :
    (pre ++ a :: b :: c :: tail)[pre.length + 2] = c := by
  have h3 := getElemBangAt (pre ++ [a, b]) c tail (by simpa [Nat.add_assoc] using h)
  simpa [Nat.add_assoc] using h3

theorem run_digits (ds : List Nat) : ∀ (acc : Nat) (pre tail : List Nat) (lp f : Nat)
    (stack : List MessageParserState) (values : List RedisValue),
    (∀ b ∈ ds, 48 ≤ b ∧ b ≤ 57) →
    parseLoop (ds.length + 2 + f) (pre ++ ds ++ 13 :: 10 :: tail) pre.length lp
      (.ReadingLength (some acc) false :: stack) values
    = parseLoop f (pre ++ ds ++ 13 :: 10 :: tail) (pre.length + ds.length + 2)
        (pre.length + ds.length + 1) stack
        (values ++ [.Integer (ds.foldl (fun a b => a * 10 + (b - 48)) acc)]) := by
  induction ds with
  | nil =>
    intro acc pre tail lp f stack values _
    simp only [List.nil_append, List.append_nil, List.length_nil, Nat.add_zero,
      List.foldl_nil]
    have hf : 0 + 2 + f = (f + 1) + 1 := by omega
    rw [hf]
    simp only [parseLoop, getElemAt, getElemAtOne]
    norm_num
  | cons d ds ih =>
    intro acc pre tail lp f stack values hd
    have hdd := hd d (List.mem_cons_self d ds)
    have hd48 : ¬(False ∧ d = 48) := by simp
    have hrest : ∀ b ∈ ds, 48 ≤ b ∧ b ≤ 57 := fun b hb => hd b (List.mem_cons_of_mem d hb)
    have hbuf : pre ++ (d :: ds) ++ 13 :: 10 :: tail =
        pre ++ d :: (ds ++ 13 :: 10 :: tail) := by simp
    rw [hbuf]
    have hf : (d :: ds).length + 2 + f = (ds.length + 2 + f) + 1 := by
      simp only [List.length_cons]; omega
    rw [hf]
    simp only [parseLoop, getElemAt, getElemBangAt]
    rw [if_pos hdd]
    simp only [Bool.false_eq_true, false_and, if_false]
    have happ : pre ++ d :: (ds ++ 13 :: 10 :: tail) =
        (pre ++ [d]) ++ ds ++ 13 :: 10 :: tail := by simp
    rw [happ]
    have hlen : pre.length + 1 = (pre ++ [d]).length := by simp
    rw [hlen, ih (acc * 10 + (d - 48)) (pre ++ [d]) tail lp f stack values hrest]
    congr 1 <;> simp [List.foldl_cons] <;> omega

theorem run_length (n : Nat) (pre tail : List Nat) (lp f : Nat)
    (stack : List MessageParserState) (values : List RedisValue) :
    parseLoop ((serNat n).length + 2 + f) (pre ++ serNat n ++ 13 :: 10 :: tail)
      pre.length lp (.ReadingLength none false :: stack) values
    = parseLoop f (pre ++ serNat n ++ 13 :: 10 :: tail)
        (pre.length + (serNat n).length + 2) (pre.length + (serNat n).length + 1)
        stack (values ++ [.Integer n]) := by
  obtain ⟨d, ds, hds⟩ : ∃ d ds, serNat n = d :: ds := by
    cases hs : serNat n with
    | nil => exact absurd hs (serNat_ne_nil n)
    | cons d ds => exact ⟨d, ds, rfl⟩
  have hd := serNat_digits n
  rw [hds] at hd ⊢
  have hdd : 48 ≤ d ∧ d ≤ 57 := hd d (List.mem_cons_self d ds)
  have hrest : ∀ b ∈ ds, 48 ≤ b ∧ b ≤ 57 := fun b hb => hd b (List.mem_cons_of_mem d hb)
  have hbuf : pre ++ (d :: ds) ++ 13 :: 10 :: tail =
      pre ++ d :: (ds ++ 13 :: 10 :: tail) := by simp
  rw [hbuf]
  have hf : (d :: ds).length + 2 + f = (ds.length + 2 + f) + 1 := by
    simp only [List.length_cons]; omega
  rw [hf]
  simp only [parseLoop, getElemAt]
  rw [if_pos hdd]
  have happ : pre ++ d :: (ds ++ 13 :: 10 :: tail) =
      (pre ++ [d]) ++ ds ++ 13 :: 10 :: tail := by simp
  rw [happ]
  have hlen : pre.length + 1 = (pre ++ [d]).length := by simp
  rw [hlen, run_digits ds (d - 48) (pre ++ [d]) tail lp f stack values hrest]
  have hfold : ds.foldl (fun a b => a * 10 + (b - 48)) (d - 48) = n := by
    have h0 := serNat_foldl n
    rw [hds] at h0
    simpa using h0
  rw [hfold]
  congr 1 <;> simp <;> omega

theorem run_simpleContent (s : List Nat) : ∀ (acc pre tail : List Nat) (lp f : Nat)
    (stack : List MessageParserState) (values : List RedisValue),
    (∀ b ∈ s, b ≠ 13) →
    parseLoop (s.length + 2 + f) (pre ++ s ++ 13 :: 10 :: tail) pre.length lp
      (.ReadingSimpleString acc :: stack) values
    = parseLoop f (pre ++ s ++ 13 :: 10 :: tail) (pre.length + s.length + 2)
        (pre.length + s.length + 1) stack (values ++ [.SimpleString (acc ++ s)]) := by
  induction s with
  | nil =>
    intro acc pre tail lp f stack values _
    simp only [List.nil_append, List.append_nil, List.length_nil, Nat.add_zero,
      List.append_nil]
    have hf : 0 + 2 + f = (f + 1) + 1 := by omega
    rw [hf]
    simp only [parseLoop, getElemAt, getElemAtOne]
    norm_num
  | cons b s ih =>
    intro acc pre tail lp f stack values hs
    have hb : b ≠ 13 := hs b (List.mem_cons_self b s)
    have hrest : ∀ x ∈ s, x ≠ 13 := fun x hx => hs x (List.mem_cons_of_mem b hx)
    have hbuf : pre ++ (b :: s) ++ 13 :: 10 :: tail =
        pre ++ b :: (s ++ 13 :: 10 :: tail) := by simp
    rw [hbuf]
    have hf : (b :: s).length + 2 + f = (s.length + 2 + f) + 1 := by
      simp only [List.length_cons]; omega
    rw [hf]
    simp only [parseLoop, getElemAt]
    rw [if_neg hb]
    have happ : pre ++ b :: (s ++ 13 :: 10 :: tail) =
        (pre ++ [b]) ++ s ++ 13 :: 10 :: tail := by simp
    rw [happ]
    have hlen : pre.length + 1 = (pre ++ [b]).length := by simp
    rw [hlen, ih (acc ++ [b]) (pre ++ [b]) tail lp f stack values hrest]
    congr 1 <;> simp <;> omega

theorem run_bulkContent (data : List Nat) : ∀ (acc : List Nat) (l : Nat)
    (pre tail : List Nat) (lp f : Nat) (stack : List MessageParserState)
    (values : List RedisValue),
    acc.length + data.length = l → data ≠ [] →
    parseLoop (data.length + 2 + f) (pre ++ data ++ 13 :: 10 :: tail) pre.length lp
      (.ReadingBulkString (.Loaded l) acc :: stack) values
    = parseLoop f (pre ++ data ++ 13 :: 10 :: tail) (pre.length + data.length + 2)
        (pre.length + data.length + 1) stack
        (values ++ [.BulkString (some (acc ++ data))]) := by
  induction data with
  | nil => intro acc l pre tail lp f stack values _ hne; exact absurd rfl hne
  | cons b rest ih =>
    intro acc l pre tail lp f stack values hlen _
    cases rest with
    | nil =>
      simp only [List.length_cons, List.length_nil, Nat.add_zero] at hlen
      have hbuf : pre ++ [b] ++ 13 :: 10 :: tail = pre ++ b :: 13 :: 10 :: tail := by simp
      rw [hbuf]
      have hf : [b].length + 2 + f = ((f + 1) + 1) + 1 := by simp only [List.length_cons, List.length_nil]; omega
      rw [hf]
      have hnotlt : ¬(acc.length + 1 < l) := by omega
      simp only [parseLoop, getElemAt, getElemAtOne, getElemAtTwo]
      rw [if_neg hnotlt]
      norm_num
    | cons b2 rest2 =>
      have hlt : acc.length + 1 < l := by
        simp only [List.length_cons] at hlen
        omega
      have hbuf : pre ++ (b :: b2 :: rest2) ++ 13 :: 10 :: tail =
          pre ++ b :: (b2 :: rest2 ++ 13 :: 10 :: tail) := by simp
      rw [hbuf]
      have hf : (b :: b2 :: rest2).length + 2 + f =
          ((b2 :: rest2).length + 2 + f) + 1 := by
        simp only [List.length_cons]; omega
      rw [hf]
      simp only [parseLoop, getElemAt]
      rw [if_pos hlt]
      have happ : pre ++ b :: (b2 :: rest2 ++ 13 :: 10 :: tail) =
          (pre ++ [b]) ++ (b2 :: rest2) ++ 13 :: 10 :: tail := by simp
      rw [happ]
      have hlen2 : pre.length + 1 = (pre ++ [b]).length := by simp
      have hlen3 : (acc ++ [b]).length + (b2 :: rest2).length = l := by
        simp only [List.length_append, List.length_cons, List.length_nil] at hlen ⊢
        omega
      rw [hlen2, ih (acc ++ [b]) l (pre ++ [b]) tail pre.length f stack values hlen3
        (by simp)]
      congr 1 <;> simp <;> omega


theorem Rt_array_cons (c : RedisValue) (cs : List RedisValue) :
    Rt (.Array (c :: cs)) = (Rt c && cs.all isCtxFree && Rt (.Array cs)) := by
  rw [Rt]

theorem rt_tail (cs : List RedisValue) (h : Rt (.Array cs) = true) :
    ∀ x ∈ cs, Rt x = true := by
  induction cs with
  | nil => intro x hx; simp at hx
  | cons c cs ih =>
    rw [Rt_array_cons] at h
    simp only [Bool.and_eq_true] at h
    intro x hx
    rcases List.mem_cons.mp hx with rfl | hx
    · exact h.1.1
    · exact ih h.2 x hx

theorem ctxfree_of_all (cs : List RedisValue) (h : cs.all isCtxFree = true) :
    ∀ x ∈ cs, isCtxFree x = true := fun x hx => List.all_eq_true.mp h x hx

theorem serializeList_cons (v : RedisValue) (vs : List RedisValue) :
    serializeList (v :: vs) = serialize v ++ serializeList vs := by
  rw [serializeList]

/-! ## C1: the round-trip theorem and its counterexamples -/

theorem serializeList_nil : serializeList [] = [] := by rw [serializeList]

/-- A context-free round-trippable frame parses correctly starting from an
arbitrary value buffer, appending itself at the back. -/
theorem run_ctxfree (v : RedisValue) (hcf : isCtxFree v = true) (hrt : Rt v = true) :
    ∀ (pre tail : List Nat) (lp f : Nat) (stack : List MessageParserState)
      (values : List RedisValue),
    parseLoop (cost v + f) (pre ++ serialize v ++ tail) pre.length lp (.Initial :: stack) values
    = parseLoop f (pre ++ serialize v ++ tail) (pre.length + (serialize v).length)
        (pre.length + ((serialize v).length - 1)) stack (values ++ [v]) := by
  cases v with
  | Integer i => rw [Rt] at hrt; simp at hrt
  | Rdb c => rw [Rt] at hrt; simp at hrt
  | SimpleString s =>
    intro pre tail lp f stack values
    have hs13 : ∀ b ∈ s, b ≠ 13 := by
      rw [Rt] at hrt
      simp only [Bool.and_eq_true, Bool.not_eq_true'] at hrt
      have h13 : ¬ (13 ∈ s) := by
        simpa using hrt.1
      intro b hb he
      exact h13 (he ▸ hb)
    have hser : serialize (.SimpleString s) = 43 :: (s ++ [13, 10]) := by rw [serialize]
    rw [hser]
    have hbuf : pre ++ (43 :: (s ++ [13, 10])) ++ tail =
        pre ++ 43 :: (s ++ 13 :: 10 :: tail) := by simp
    rw [hbuf]
    obtain ⟨FB, hFB⟩ : ∃ x, x = s.length + 2 + f := ⟨_, rfl⟩
    have hf : cost (.SimpleString s) + f = FB + 1 := by rw [hFB, cost]; omega
    rw [hf]
    simp only [parseLoop, getElemAt]
    norm_num
    have happ : pre ++ 43 :: (s ++ 13 :: 10 :: tail) =
        (pre ++ [43]) ++ s ++ 13 :: 10 :: tail := by simp
    rw [happ]
    have hlen : pre.length + 1 = (pre ++ [43]).length := by simp
    rw [hlen, hFB]
    have hrun := run_simpleContent s [] (pre ++ [43]) tail pre.length f stack values hs13
    rw [hrun]
    congr 1 <;> simp <;> omega
  | BulkString o =>
    cases o with
    | none => rw [Rt] at hrt; simp at hrt
    | some d =>
      intro pre tail lp f stack values
      have hdne : d ≠ [] := by
        rw [Rt] at hrt
        simpa using hrt
      have hser : serialize (.BulkString (some d)) =
          36 :: (serNat d.length ++ [13, 10] ++ d ++ [13, 10]) := by rw [serialize]
      rw [hser]
      have hbuf : pre ++ (36 :: (serNat d.length ++ [13, 10] ++ d ++ [13, 10])) ++ tail =
          pre ++ 36 :: (serNat d.length ++ 13 :: 10 :: (d ++ 13 :: 10 :: tail)) := by simp
      rw [hbuf]
      obtain ⟨FB, hFB⟩ : ∃ x, x = d.length + 2 + f := ⟨_, rfl⟩
      obtain ⟨FA, hFA⟩ : ∃ x, x = (serNat d.length).length + 2 + (FB + 1) := ⟨_, rfl⟩
      have hf : cost (.BulkString (some d)) + f = (FA + 1) + 1 := by
        rw [hFA, hFB, cost]; omega
      rw [hf]
      simp only [parseLoop, getElemAt]
      norm_num
      have happ : pre ++ 36 :: (serNat d.length ++ 13 :: 10 :: (d ++ 13 :: 10 :: tail)) =
          (pre ++ [36]) ++ serNat d.length ++ 13 :: 10 :: (d ++ 13 :: 10 :: tail) := by simp
      rw [happ]
      have hlen : pre.length + 1 = (pre ++ [36]).length := by simp
      rw [hlen, hFA, run_length d.length (pre ++ [36]) (d ++ 13 :: 10 :: tail) pre.length
        (FB + 1) (.ReadingBulkString .Loading [] :: stack) values]
      simp only [parseLoop, List.getLast?_concat, List.dropLast_concat]
      have happ2 : (pre ++ [36]) ++ serNat d.length ++ 13 :: 10 :: (d ++ 13 :: 10 :: tail) =
          ((pre ++ [36]) ++ serNat d.length ++ [13, 10]) ++ d ++ 13 :: 10 :: tail := by simp
      rw [happ2]
      have hlen2 : (pre ++ [36]).length + (serNat d.length).length + 2 =
          ((pre ++ [36]) ++ serNat d.length ++ [13, 10]).length := by
        simp only [List.length_append, List.length_cons, List.length_nil] <;> omega
      rw [hlen2]
      rw [hFB]
      have hrun := run_bulkContent d [] d.length
        (((pre ++ [36]) ++ serNat d.length ++ [13, 10] : List Nat)) tail
        ((pre ++ [36]).length + (serNat d.length).length + 1) f stack values (by simp) hdne
      rw [hrun]
      congr 1 <;> simp <;> omega
  | Array cs =>
    cases cs with
    | cons c cs2 =>
      rw [isCtxFree] at hcf
      simp at hcf
    | nil =>
      intro pre tail lp f stack values
      have hser : serialize (.Array ([] : List RedisValue)) =
          [42] ++ serNat 0 ++ [13, 10] := by
        rw [serialize, serializeList_nil]; simp
      rw [hser]
      have hbuf : pre ++ ([42] ++ serNat 0 ++ [13, 10]) ++ tail =
          pre ++ 42 :: (serNat 0 ++ 13 :: 10 :: tail) := by simp
      rw [hbuf]
      obtain ⟨FC, hFC⟩ : ∃ x, x = (f + 1) + 1 := ⟨_, rfl⟩
      obtain ⟨FB, hFB⟩ : ∃ x, x = (serNat 0).length + 2 + FC := ⟨_, rfl⟩
      have hf : cost (.Array ([] : List RedisValue)) + f = (FB + 1) + 1 := by
        rw [hFB, hFC, cost, costList]; simp only [List.length_nil]; omega
      rw [hf]
      simp only [parseLoop, getElemAt]
      norm_num
      have happ : pre ++ 42 :: (serNat 0 ++ 13 :: 10 :: tail) =
          (pre ++ [42]) ++ serNat 0 ++ 13 :: 10 :: tail := by simp
      rw [happ]
      have hlen : pre.length + 1 = (pre ++ [42]).length := by simp
      rw [hlen, hFB]
      have hrunlen := run_length 0 (pre ++ [42]) tail pre.length FC
        (.ReadingArray .Loading 0 :: stack) values
      rw [hrunlen, hFC]
      simp only [parseLoop, List.getLast?_concat, List.dropLast_concat]
      norm_num
      congr 1 <;> simp <;> omega

/-- Processing the serialized tail children of an array: every child is
round-trippable and context-free; the collected counter equals the number
of already-buffered values, so the terminal drain-from-the-front step
wraps exactly the buffered children. -/
theorem run_children_cf (cs : List RedisValue) : ∀ (vs : List RedisValue) (l : Nat)
    (pre tail : List Nat) (f : Nat) (rest : List MessageParserState),
    (∀ x ∈ cs, Rt x = true ∧ isCtxFree x = true) → vs.length + cs.length = l →
    parseLoop (costList cs + cs.length + 1 + f) (pre ++ serializeList cs ++ tail)
      pre.length (pre.length - 1) (.ReadingArray (.Loaded l) vs.length :: rest) vs
    = parseLoop f (pre ++ serializeList cs ++ tail)
        (pre.length + (serializeList cs).length)
        (pre.length + (serializeList cs).length - 1) rest [.Array (vs ++ cs)] := by
  induction cs with
  | nil =>
    intro vs l pre tail f rest _ hl
    simp only [List.length_nil, Nat.add_zero] at hl
    subst hl
    rw [serializeList_nil, costList]
    simp only [List.append_nil, List.length_nil, Nat.add_zero]
    have hf : 0 + 0 + 1 + f = f + 1 := by omega
    rw [hf]
    simp only [parseLoop]
    rw [if_neg (lt_irrefl vs.length), if_pos le_rfl]
    rw [List.drop_length, List.take_length]
    simp
  | cons c cs2 ih =>
    intro vs l pre tail f rest hall hl
    have hc := hall c (List.mem_cons_self c cs2)
    have hrest : ∀ x ∈ cs2, Rt x = true ∧ isCtxFree x = true :=
      fun x hx => hall x (List.mem_cons_of_mem c hx)
    have hlt : vs.length < l := by simp only [List.length_cons] at hl; omega
    rw [serializeList_cons]
    have hbuf : pre ++ (serialize c ++ serializeList cs2) ++ tail
        = pre ++ serialize c ++ (serializeList cs2 ++ tail) := by simp
    rw [hbuf]
    obtain ⟨FA, hFA⟩ : ∃ x, x = cost c + (costList cs2 + cs2.length + 1 + f) := ⟨_, rfl⟩
    have hf : costList (c :: cs2) + (c :: cs2).length + 1 + f = FA + 1 := by
      rw [hFA, costList]; simp only [List.length_cons]; omega
    rw [hf]
    simp only [parseLoop]
    rw [if_pos hlt]
    rw [hFA]
    have hrun := run_ctxfree c hc.2 hc.1 pre (serializeList cs2 ++ tail) (pre.length - 1)
      (costList cs2 + cs2.length + 1 + f) (.ReadingArray (.Loaded l) (vs.length + 1) :: rest) vs
    rw [hrun]
    have hbuf2 : pre ++ serialize c ++ (serializeList cs2 ++ tail)
        = (pre ++ serialize c) ++ serializeList cs2 ++ tail := by simp
    rw [hbuf2]
    have hpos : pre.length + (serialize c).length = (pre ++ serialize c).length := by simp
    rw [hpos]
    have hsp := serialize_length_pos c
    have hlp : pre.length + ((serialize c).length - 1) = (pre ++ serialize c).length - 1 := by
      simp only [List.length_append]; omega
    rw [hlp]
    have hcnt : vs.length + 1 = (vs ++ [c]).length := by simp
    rw [hcnt]
    have hih := ih (vs ++ [c]) l (pre ++ serialize c) tail f rest hrest
      (by simp only [List.length_append, List.length_cons, List.length_nil] at hl ⊢; omega)
    rw [hih]
    congr 1 <;> simp <;> omega

/-- Fuel-bounded form of the round-trip run: a round-trippable frame,
parsed from an empty value buffer, is consumed in exactly `cost v`
iterations and appended to the value buffer. -/
theorem run_value_aux (n : Nat) : ∀ (v : RedisValue), cost v ≤ n → Rt v = true →
    ∀ (pre tail : List Nat) (lp f : Nat) (stack : List MessageParserState),
    parseLoop (cost v + f) (pre ++ serialize v ++ tail) pre.length lp (.Initial :: stack) []
    = parseLoop f (pre ++ serialize v ++ tail) (pre.length + (serialize v).length)
        (pre.length + ((serialize v).length - 1)) stack [v] := by
  induction n with
  | zero =>
    intro v hc hrt
    exfalso
    cases v with
    | SimpleString s => rw [cost] at hc; omega
    | BulkString o =>
      cases o with
      | none => rw [Rt] at hrt; simp at hrt
      | some d => rw [cost] at hc; omega
    | Integer i => rw [Rt] at hrt; simp at hrt
    | Rdb c => rw [Rt] at hrt; simp at hrt
    | Array cs =>
      rw [cost] at hc
      have := serNat_length_pos cs.length
      omega
  | succ n ih =>
    intro v hc hrt pre tail lp f stack
    cases v with
    | SimpleString s =>
      have h := run_ctxfree (.SimpleString s) (by rfl) hrt pre tail lp f stack []
      simpa using h
    | BulkString o =>
      cases o with
      | none => rw [Rt] at hrt; simp at hrt
      | some d =>
        have h := run_ctxfree (.BulkString (some d)) (by rfl) hrt
          pre tail lp f stack []
        simpa using h
    | Integer i => rw [Rt] at hrt; simp at hrt
    | Rdb c => rw [Rt] at hrt; simp at hrt
    | Array cs =>
      cases cs with
      | nil =>
        have h := run_ctxfree (.Array []) (by rfl) hrt pre tail lp f stack []
        simpa using h
      | cons c cs2 =>
        rw [Rt_array_cons] at hrt
        simp only [Bool.and_eq_true] at hrt
        obtain ⟨⟨hrtc, hcf2⟩, hrta2⟩ := hrt
        have hall : ∀ x ∈ cs2, Rt x = true ∧ isCtxFree x = true := fun x hx =>
          ⟨rt_tail cs2 hrta2 x hx, ctxfree_of_all cs2 hcf2 x hx⟩
        have hcostc : cost c ≤ n := by
          rw [cost, costList] at hc
          have := serNat_length_pos (c :: cs2).length
          omega
        have hser : serialize (.Array (c :: cs2)) =
            [42] ++ serNat (cs2.length + 1) ++ [13, 10] ++ (serialize c ++ serializeList cs2) := by
          rw [serialize, serializeList_cons]; simp
        rw [hser]
        have hbuf : pre ++ ([42] ++ serNat (cs2.length + 1) ++ [13, 10]
              ++ (serialize c ++ serializeList cs2)) ++ tail
            = pre ++ 42 :: (serNat (cs2.length + 1)
                ++ 13 :: 10 :: (serialize c ++ (serializeList cs2 ++ tail))) := by simp
        rw [hbuf]
        obtain ⟨FC, hFC⟩ : ∃ x, x = cost c + (costList cs2 + cs2.length + 1 + f) := ⟨_, rfl⟩
        obtain ⟨FB, hFB⟩ : ∃ x, x = (serNat (cs2.length + 1)).length + 2 + ((FC + 1) + 1) :=
          ⟨_, rfl⟩
        have hf : cost (.Array (c :: cs2)) + f = (FB + 1) + 1 := by
          rw [hFB, hFC, cost, costList]
          simp only [List.length_cons]
          omega
        rw [hf]
        simp only [parseLoop, getElemAt]
        norm_num
        have happ : pre ++ 42 :: (serNat (cs2.length + 1)
              ++ 13 :: 10 :: (serialize c ++ (serializeList cs2 ++ tail)))
            = (pre ++ [42]) ++ serNat (cs2.length + 1)
              ++ 13 :: 10 :: (serialize c ++ (serializeList cs2 ++ tail)) := by simp
        rw [happ]
        have hlen1 : pre.length + 1 = (pre ++ [42]).length := by simp
        rw [hlen1, hFB]
        have hrunlen := run_length (cs2.length + 1) (pre ++ [42])
          (serialize c ++ (serializeList cs2 ++ tail)) pre.length ((FC + 1) + 1)
          (.ReadingArray .Loading 0 :: stack) []
        rw [hrunlen]
        simp only [parseLoop, List.getLast?_concat, List.dropLast_concat]
        rw [if_pos (Nat.succ_pos cs2.length)]
        rw [hFC]
        have hbuf2 : (pre ++ [42]) ++ serNat (cs2.length + 1)
              ++ 13 :: 10 :: (serialize c ++ (serializeList cs2 ++ tail))
            = ((pre ++ [42]) ++ serNat (cs2.length + 1) ++ [13, 10])
              ++ serialize c ++ (serializeList cs2 ++ tail) := by simp
        rw [hbuf2]
        have hpos2 : (pre ++ [42]).length + (serNat (cs2.length + 1)).length + 2
            = ((pre ++ [42]) ++ serNat (cs2.length + 1) ++ [13, 10]).length := by
          simp only [List.length_append, List.length_cons, List.length_nil] <;> omega
        rw [hpos2]
        have hrc := ih c hcostc hrtc ((pre ++ [42]) ++ serNat (cs2.length + 1) ++ [13, 10])
          (serializeList cs2 ++ tail) ((pre ++ [42]).length + (serNat (cs2.length + 1)).length + 1)
          (costList cs2 + cs2.length + 1 + f)
          (.ReadingArray (.Loaded (cs2.length + 1)) 1 :: stack)
        rw [hrc]
        have hpre2 : ((pre ++ [42]) ++ serNat (cs2.length + 1) ++ [13, 10] : List Nat)
            ++ serialize c ++ (serializeList cs2 ++ tail)
            = (((pre ++ [42]) ++ serNat (cs2.length + 1) ++ [13, 10]) ++ serialize c)
              ++ serializeList cs2 ++ tail := by simp
        rw [hpre2]
        have hpos3 : ((pre ++ [42]) ++ serNat (cs2.length + 1) ++ [13, 10] : List Nat).length
              + (serialize c).length
            = (((pre ++ [42]) ++ serNat (cs2.length + 1) ++ [13, 10]) ++ serialize c).length := by
          simp <;> omega
        rw [hpos3]
        have hsp := serialize_length_pos c
        have hlp3 : ((pre ++ [42]) ++ serNat (cs2.length + 1) ++ [13, 10] : List Nat).length
              + ((serialize c).length - 1)
            = (((pre ++ [42]) ++ serNat (cs2.length + 1) ++ [13, 10]) ++ serialize c).length
              - 1 := by
          simp only [List.length_append]; omega
        rw [hlp3]
        have hrch := run_children_cf cs2 [c] (cs2.length + 1)
          (((pre ++ [42]) ++ serNat (cs2.length + 1) ++ [13, 10]) ++ serialize c) tail f stack
          hall (by simp <;> omega)
        simp only [List.length_cons, List.length_nil, Nat.zero_add] at hrch
        rw [hrch]
        congr 1 <;> simp <;> omega

/-- C1 (amended): for every round-trippable frame `F` — CR-free simple
strings, non-empty bulk strings, and arrays of such values in which
every child after the first is context-free — a fresh parser on
`serialize F` returns `(some F, |serialize F| - 1)`: the reported count
is the index *of* the last byte, not one past it; the parser drains the
whole frame and is left empty. -/
theorem c1_roundtrip_amended (F : RedisValue) (h : Rt F = true) :
    (RedisValueParser.new.append (serialize F)).parse
    = some (.ok (some F, (serialize F).length - 1), ⟨[], [], []⟩) := by
  simp only [RedisValueParser.parse, RedisValueParser.append, RedisValueParser.new,
    parseFuel, List.nil_append, List.length_nil, Nat.mul_zero, Nat.add_zero]
  obtain ⟨R, hR⟩ : ∃ r, 4 * (serialize F).length + 20 = cost F + (r + 1) :=
    ⟨4 * (serialize F).length + 19 - cost F, by have := cost_le F; omega⟩
  rw [hR]
  have hrv := run_value_aux (cost F) F le_rfl h [] [] 0 (R + 1) []
  simp only [List.nil_append, List.append_nil, List.length_nil, Nat.zero_add] at hrv
  rw [hrv]
  simp only [parseLoop]
  have hsp := serialize_length_pos F
  have hdrop : (serialize F).length - 1 + 1 = (serialize F).length := by omega
  rw [hdrop, List.drop_length]
  simp

/-- C1 counterexample: the spec's universal round-trip claim
`parse(serialize F) = (Some F, |serialize F|)` fails — the reported
count is `|serialize F| - 1` even when parsing succeeds (empty array:
count 3 for 4 bytes), integers and null bulk strings are rejected
outright by the fresh parser, and an array whose second child is a
non-empty array is reassembled with the siblings swapped and nested. -/
theorem c1_counterexample :
    ((RedisValueParser.new.append (serialize (.Array []))).parse
      = some (.ok (some (.Array []), 3), ⟨[], [], []⟩)
      ∧ (serialize (.Array ([] : List RedisValue))).length = 4)
    ∧ (RedisValueParser.new.append (serialize (.Integer 5))).parse
      = some (.error (.UnexceptedToken 58 0), ⟨[58, 53, 13, 10], [], []⟩)
    ∧ (RedisValueParser.new.append (serialize (.BulkString none))).parse
      = some (.error (.UnexceptedToken 45 1),
          ⟨[36, 45, 49, 13, 10], [], [.ReadingBulkString .Loading []]⟩)
    ∧ (RedisValueParser.new.append
        (serialize (.Array [.BulkString (some [97]), .Array [.BulkString (some [98])]]))).parse
      = some (.ok (some (.Array [.BulkString (some [98]), .Array [.BulkString (some [97])]]), 21),
          ⟨[], [], []⟩) :=
  ⟨⟨rfl, rfl⟩, rfl, rfl, rfl⟩

/-- Witness for C1: a concrete round-trippable frame — a nested array
first child, then a bulk string and a simple string — with the
hypothesis `Rt F = true` discharged concretely. -/
theorem c1_witness :
    Rt (.Array [.Array [.BulkString (some (strBytes "x"))],
        .BulkString (some (strBytes "hi")), .SimpleString (strBytes "OK")]) = true
    ∧ (RedisValueParser.new.append (serialize (.Array [.Array [.BulkString (some (strBytes "x"))],
        .BulkString (some (strBytes "hi")), .SimpleString (strBytes "OK")]))).parse
      = some (.ok (some (.Array [.Array [.BulkString (some (strBytes "x"))],
            .BulkString (some (strBytes "hi")), .SimpleString (strBytes "OK")]),
          (serialize (.Array [.Array [.BulkString (some (strBytes "x"))],
            .BulkString (some (strBytes "hi")), .SimpleString (strBytes "OK")])).length - 1),
          ⟨[], [], []⟩) :=
  ⟨by simp [Rt, isCtxFree, strBytes] <;> decide, c1_roundtrip_amended _ (by simp [Rt, isCtxFree, strBytes] <;> decide)⟩
